import Mathlib

/-!
A shallow embedding of the OptiSched hierarchical scheduler
(`app/core/scheduler.py`) together with proofs about the properties of its
specification.  Pure helpers of the Python code become Lean functions on
`ℕ`/`ℚ`; the CP-SAT model built by a phase is materialised as explicit lists
of sessions, intervals and side constraints, and a solver solution is an
assignment of values to the integer variables that satisfies the model
semantics.  Stateful parts (occupancy ledger, id counter, practicum load
counters) are threaded explicitly.  Randomness (the per-run room shuffle) is
modelled by taking the already-normalised, already-shuffled room map as an
input snapshot, exactly as the scheduler consumes it after `load_data`.
-/

set_option maxHeartbeats 1000000
set_option maxRecDepth 8000
set_option linter.unusedVariables false

namespace OptiSched

/-- Python `int()` applied to a (non-special) float: truncation toward zero.
The numeric values handled by the scheduler (half-hour multiples of small
magnitudes) are exactly representable, so `ℚ` models them faithfully. -/
def pytrunc (q : ℚ) : ℤ := if 0 ≤ q then ⌊q⌋ else -⌊-q⌋

/-- Section key `(program, yearLevel, block)` exactly as used by
`section_occupied` and `section_intervals` in scheduler.py. -/
abbrev SectionKey := String × ℕ × Char

/-- Input course snapshot (`load_courses` element) with the numeric fields
already coerced, matching the `float(...)`/`int(...)` coercions performed by
the scheduler on well-formed input. -/
structure Course where
  courseCode : String
  title : String
  program : String
  yearLevel : ℕ
  unitsLecture : ℚ
  unitsLab : ℚ
  blocks : ℕ
deriving DecidableEq, Repr

/-- Time-grid configuration: `setup_time_parameters` inputs. -/
structure Cfg where
  start_t : ℚ
  end_t : ℚ
  days : List String
deriving DecidableEq, Repr

/-- Number of half-hour slots per day, `int((end_t - start_t) / inc_hr)` with
`inc_hr = 0.5` (clamped at zero for the degenerate `end_t < start_t` case,
which the scheduler never meets on sane settings). -/
def Cfg.slots_per_day (c : Cfg) : ℕ := (pytrunc ((c.end_t - c.start_t) / (1/2))).toNat

def Cfg.numDays (c : Cfg) : ℕ := c.days.length

def Cfg.total_inc (c : Cfg) : ℕ := c.slots_per_day * c.numDays

/-- Lunch window of `setup_time_parameters`: the two in-day slot indices
starting at 11:30, provided `11.5 - start_t >= 0`. -/
def Cfg.lunch_slots (c : Cfg) : Finset ℤ :=
  let off : ℚ := 23/2 - c.start_t
  if 0 ≤ off then {pytrunc (off / (1/2)), pytrunc (off / (1/2)) + 1} else (∅ : Finset ℤ)

/-! ### DomainBuilder (`get_valid_domain`) -/

/-- GEC/MAT fixed start offsets (7:00, 8:30, 10:00, 12:30, 14:00, 15:30,
17:30, 19:00 on the default grid). -/
def gec_strict_offsets : List ℕ := [0, 3, 6, 11, 14, 17, 21, 24]

/-- NSTP fixed start offsets (9:00, 13:00, 15:00 on the default grid). -/
def nstp_strict_offsets : List ℕ := [4, 12, 16]

/-- Day-restriction cascade of `get_valid_domain` (the three `continue`
guards at the top of the per-day loop). -/
def dayAllowed (is_gec is_nstp is_pe is_practicum : Bool) (pw : Option ℕ)
    (day_idx : ℕ) : Bool :=
  (!is_nstp || (day_idx == 4 || day_idx == 5)) &&
  (!is_gec || (day_idx == 0 || day_idx == 1 || day_idx == 2 || day_idx == 3)) &&
  (!(is_practicum && pw.isSome) ||
    (!(pw == some 0 && decide (day_idx > 2)) && !(pw == some 1 && decide (day_idx < 3))))

/-- Candidate in-day start offsets for one day (the slot-selection branch of
`get_valid_domain`): PE adjacency offsets, the GEC/NSTP fixed sets, or the
full `0 .. slots_per_day - duration` range. -/
def allowedOffsets (spd duration : ℕ) (occupied : Finset ℕ) (base : ℕ)
    (is_gec is_nstp is_pe : Bool) : List ℕ :=
  if is_pe then
    let day_occupancy := (List.range spd).filter (fun o => decide (base + o ∈ occupied))
    if day_occupancy.isEmpty then [0]
    else
      let min_slot := day_occupancy.foldl Nat.min spd
      let max_slot := day_occupancy.foldl Nat.max 0
      (if duration ≤ min_slot then [min_slot - duration] else []) ++
      (if max_slot + 1 + duration ≤ spd then [max_slot + 1] else [])
  else if is_gec then gec_strict_offsets
  else if is_nstp then nstp_strict_offsets
  else List.range (spd + 1 - duration)

/-- Collision test of `get_valid_domain`: the candidate range meets the
occupied-slot set. -/
def collides (occupied : Finset ℕ) (start duration : ℕ) : Bool :=
  (List.range duration).any (fun k => decide (start + k ∈ occupied))

/-- Lunch test of `get_valid_domain`: some slot of the candidate range lands
in the lunch window. -/
def lunchConflict (spd : ℕ) (lunch : Finset ℤ) (start duration : ℕ) : Bool :=
  (List.range duration).any (fun k => decide ((((start + k) % spd : ℕ) : ℤ) ∈ lunch))

/-- Per-candidate body of `get_valid_domain`'s inner loop: fit check,
collision check, then classification as strict or relaxed. -/
def domainStep (cfg : Cfg) (duration : ℕ) (occupied : Finset ℕ) (day_idx : ℕ)
    (acc : List ℕ × List ℕ) (offset : ℕ) : List ℕ × List ℕ :=
  let spd := cfg.slots_per_day
  let start_slot := day_idx * spd + offset
  if start_slot + duration > (day_idx + 1) * spd then acc
  else if collides occupied start_slot duration then acc
  else if lunchConflict spd cfg.lunch_slots start_slot duration then
    (acc.1, acc.2 ++ [start_slot])
  else
    (acc.1 ++ [start_slot], acc.2)

/-- scheduler.py `get_valid_domain`: scan the days, collect strict (lunch
free) and relaxed (lunch touching) candidate global starts, return
`strict ++ relaxed`. -/
def get_valid_domain (cfg : Cfg) (duration : ℕ) (occupied : Finset ℕ)
    (is_gec is_nstp is_pe is_practicum : Bool) (pw : Option ℕ) : List ℕ :=
  let spd := cfg.slots_per_day
  let r := (List.range cfg.numDays).foldl
    (fun acc day_idx =>
      if dayAllowed is_gec is_nstp is_pe is_practicum pw day_idx then
        (allowedOffsets spd duration occupied (day_idx * spd) is_gec is_nstp is_pe).foldl
          (domainStep cfg duration occupied day_idx) acc
      else acc)
    ([], [])
  r.1 ++ r.2

/-! Specification-side (claim C4) description of the domain: a candidate
`(day, offset)` is kept iff the day passes the category restriction, the
offset lies in the category offset set, the slot range stays within the day
and misses `occupied`; the result lists all strict candidates then all
relaxed ones, in day-major scan order. -/

/-- Claim-side keep predicate for a candidate (fit inside the day and no
collision with occupied slots). -/
def specOK (spd duration : ℕ) (occupied : Finset ℕ) (d o : ℕ) : Bool :=
  decide (d * spd + o + duration ≤ (d + 1) * spd) && !collides occupied (d * spd + o) duration

/-- Claim-side list of strict candidates, in scan order. -/
def domainSpecStrict (cfg : Cfg) (duration : ℕ) (occupied : Finset ℕ)
    (is_gec is_nstp is_pe is_practicum : Bool) (pw : Option ℕ) : List ℕ :=
  let spd := cfg.slots_per_day
  ((List.range cfg.numDays).filter (dayAllowed is_gec is_nstp is_pe is_practicum pw)).flatMap
    (fun d =>
      ((allowedOffsets spd duration occupied (d * spd) is_gec is_nstp is_pe).filter
        (fun o => specOK spd duration occupied d o &&
          !lunchConflict spd cfg.lunch_slots (d * spd + o) duration)).map
        (fun o => d * spd + o))

/-- Claim-side list of relaxed (lunch-touching) candidates, in scan order. -/
def domainSpecRelaxed (cfg : Cfg) (duration : ℕ) (occupied : Finset ℕ)
    (is_gec is_nstp is_pe is_practicum : Bool) (pw : Option ℕ) : List ℕ :=
  let spd := cfg.slots_per_day
  ((List.range cfg.numDays).filter (dayAllowed is_gec is_nstp is_pe is_practicum pw)).flatMap
    (fun d =>
      ((allowedOffsets spd duration occupied (d * spd) is_gec is_nstp is_pe).filter
        (fun o => specOK spd duration occupied d o &&
          lunchConflict spd cfg.lunch_slots (d * spd + o) duration)).map
        (fun o => d * spd + o))

theorem domainStep_foldl (cfg : Cfg) (duration : ℕ) (occupied : Finset ℕ) (d : ℕ)
    (offs : List ℕ) (a b : List ℕ) :
    offs.foldl (domainStep cfg duration occupied d) (a, b) =
      (a ++ ((offs.filter (fun o => specOK cfg.slots_per_day duration occupied d o &&
              !lunchConflict cfg.slots_per_day cfg.lunch_slots (d * cfg.slots_per_day + o) duration)).map
              (fun o => d * cfg.slots_per_day + o)),
       b ++ ((offs.filter (fun o => specOK cfg.slots_per_day duration occupied d o &&
              lunchConflict cfg.slots_per_day cfg.lunch_slots (d * cfg.slots_per_day + o) duration)).map
              (fun o => d * cfg.slots_per_day + o))) := by
  induction offs generalizing a b with
  | nil => simp
  | cons o rest ih =>
    simp only [List.foldl_cons, List.filter_cons]
    by_cases hfit : d * cfg.slots_per_day + o + duration > (d + 1) * cfg.slots_per_day
    · have : specOK cfg.slots_per_day duration occupied d o = false := by
        simp [specOK, Nat.not_le.mpr hfit]
      rw [domainStep, if_pos hfit]
      simp [this, ih]
    · by_cases hcol : collides occupied (d * cfg.slots_per_day + o) duration
      · have : specOK cfg.slots_per_day duration occupied d o = false := by
          simp [specOK, hcol]
        rw [domainStep, if_neg hfit, if_pos hcol]
        simp [this, ih]
      · have hok : specOK cfg.slots_per_day duration occupied d o = true := by
          simp only [specOK, Bool.and_eq_true, decide_eq_true_eq, Bool.not_eq_true']
          exact ⟨Nat.not_lt.mp hfit, by simpa using hcol⟩
        by_cases hl : lunchConflict cfg.slots_per_day cfg.lunch_slots (d * cfg.slots_per_day + o) duration
        · rw [domainStep, if_neg hfit, if_neg (by simpa using hcol), if_pos hl]
          simp [hok, hl, ih]
        · rw [domainStep, if_neg hfit, if_neg (by simpa using hcol),
            if_neg (by simpa using hl)]
          simp only [hok, Bool.not_eq_true] at hl ⊢
          simp [hl, ih]

theorem get_valid_domain_fold (cfg : Cfg) (duration : ℕ) (occupied : Finset ℕ)
    (is_gec is_nstp is_pe is_practicum : Bool) (pw : Option ℕ)
    (ds : List ℕ) (a b : List ℕ) :
    ds.foldl
      (fun acc day_idx =>
        if dayAllowed is_gec is_nstp is_pe is_practicum pw day_idx then
          (allowedOffsets cfg.slots_per_day duration occupied (day_idx * cfg.slots_per_day)
            is_gec is_nstp is_pe).foldl
            (domainStep cfg duration occupied day_idx) acc
        else acc)
      (a, b) =
    (a ++ (ds.filter (dayAllowed is_gec is_nstp is_pe is_practicum pw)).flatMap
        (fun d =>
          ((allowedOffsets cfg.slots_per_day duration occupied (d * cfg.slots_per_day)
              is_gec is_nstp is_pe).filter
            (fun o => specOK cfg.slots_per_day duration occupied d o &&
              !lunchConflict cfg.slots_per_day cfg.lunch_slots (d * cfg.slots_per_day + o) duration)).map
            (fun o => d * cfg.slots_per_day + o)),
     b ++ (ds.filter (dayAllowed is_gec is_nstp is_pe is_practicum pw)).flatMap
        (fun d =>
          ((allowedOffsets cfg.slots_per_day duration occupied (d * cfg.slots_per_day)
              is_gec is_nstp is_pe).filter
            (fun o => specOK cfg.slots_per_day duration occupied d o &&
              lunchConflict cfg.slots_per_day cfg.lunch_slots (d * cfg.slots_per_day + o) duration)).map
            (fun o => d * cfg.slots_per_day + o))) := by
  induction ds generalizing a b with
  | nil => simp
  | cons d rest ih =>
    simp only [List.foldl_cons, List.filter_cons]
    by_cases hd : dayAllowed is_gec is_nstp is_pe is_practicum pw d
    · rw [if_pos hd, domainStep_foldl, ih]
      simp [hd]
    · rw [if_neg hd, ih]
      simp [hd]

/-- Helper: the domain really is the strict list followed by the relaxed
list, with the claim-side membership conditions. -/
theorem get_valid_domain_eq_spec (cfg : Cfg) (duration : ℕ) (occupied : Finset ℕ)
    (is_gec is_nstp is_pe is_practicum : Bool) (pw : Option ℕ) :
    get_valid_domain cfg duration occupied is_gec is_nstp is_pe is_practicum pw =
      domainSpecStrict cfg duration occupied is_gec is_nstp is_pe is_practicum pw ++
      domainSpecRelaxed cfg duration occupied is_gec is_nstp is_pe is_practicum pw := by
  unfold get_valid_domain domainSpecStrict domainSpecRelaxed
  dsimp only
  rw [get_valid_domain_fold]
  simp

/-- Membership characterisation of the scan result. -/
theorem mem_get_valid_domain {cfg : Cfg} {duration : ℕ} {occupied : Finset ℕ}
    {is_gec is_nstp is_pe is_practicum : Bool} {pw : Option ℕ} {x : ℕ}
    (hx : x ∈ get_valid_domain cfg duration occupied is_gec is_nstp is_pe is_practicum pw) :
    ∃ d o, d < cfg.numDays ∧
      dayAllowed is_gec is_nstp is_pe is_practicum pw d = true ∧
      o ∈ allowedOffsets cfg.slots_per_day duration occupied (d * cfg.slots_per_day)
            is_gec is_nstp is_pe ∧
      x = d * cfg.slots_per_day + o ∧
      o + duration ≤ cfg.slots_per_day ∧
      collides occupied x duration = false := by
  rw [get_valid_domain_eq_spec] at hx
  rcases List.mem_append.mp hx with h | h <;>
  · simp only [domainSpecStrict, domainSpecRelaxed] at h
    rw [List.mem_flatMap] at h
    obtain ⟨d, hd, hx2⟩ := h
    rw [List.mem_filter, List.mem_range] at hd
    rw [List.mem_map] at hx2
    obtain ⟨o, ho, rfl⟩ := hx2
    rw [List.mem_filter] at ho
    obtain ⟨hoA, hoB⟩ := ho
    simp only [Bool.and_eq_true, specOK, decide_eq_true_eq, Bool.not_eq_true'] at hoB
    refine ⟨d, o, hd.1, hd.2, hoA, rfl, ?_, hoB.1.2⟩
    have h1 := hoB.1.1
    rw [Nat.succ_mul] at h1
    omega

/-- Any start in the domain has its whole slot range outside `occupied`. -/
theorem get_valid_domain_no_collision {cfg : Cfg} {duration : ℕ} {occupied : Finset ℕ}
    {is_gec is_nstp is_pe is_practicum : Bool} {pw : Option ℕ} {x : ℕ}
    (hx : x ∈ get_valid_domain cfg duration occupied is_gec is_nstp is_pe is_practicum pw)
    {k : ℕ} (hk : k < duration) : x + k ∉ occupied := by
  obtain ⟨d, o, _, _, _, _, _, hcol⟩ := mem_get_valid_domain hx
  intro hmem
  have : collides occupied x duration = true := by
    simp only [collides, List.any_eq_true, List.mem_range, decide_eq_true_eq]
    exact ⟨k, hk, hmem⟩
  rw [hcol] at this
  exact Bool.false_ne_true this

/-- On a positive-duration candidate the generating day is recovered by
division, so the day restrictions constrain the start's day index. -/
theorem get_valid_domain_day {cfg : Cfg} {duration : ℕ} {occupied : Finset ℕ}
    {is_gec is_nstp is_pe is_practicum : Bool} {pw : Option ℕ} {x : ℕ}
    (hx : x ∈ get_valid_domain cfg duration occupied is_gec is_nstp is_pe is_practicum pw)
    (hdur : 1 ≤ duration) :
    dayAllowed is_gec is_nstp is_pe is_practicum pw (x / cfg.slots_per_day) = true ∧
      x / cfg.slots_per_day < cfg.numDays ∧
      x + duration ≤ (x / cfg.slots_per_day + 1) * cfg.slots_per_day := by
  obtain ⟨d, o, hdn, hall, _, rfl, hfit, _⟩ := mem_get_valid_domain hx
  have hspd : 0 < cfg.slots_per_day := by omega
  have ho : o < cfg.slots_per_day := by omega
  have hdiv : (d * cfg.slots_per_day + o) / cfg.slots_per_day = d := by
    rw [Nat.mul_comm d cfg.slots_per_day, Nat.mul_add_div hspd, Nat.div_eq_of_lt ho]
    omega
  rw [hdiv]
  refine ⟨hall, hdn, ?_⟩
  rw [Nat.succ_mul]
  omega

/-- NSTP day restriction in terms of the flag cascade. -/
theorem dayAllowed_nstp {is_gec is_pe is_practicum : Bool} {pw : Option ℕ} {d : ℕ}
    (h : dayAllowed is_gec true is_pe is_practicum pw d = true) : d = 4 ∨ d = 5 := by
  simp only [dayAllowed, Bool.not_true, Bool.false_or, Bool.and_eq_true, Bool.or_eq_true,
    beq_iff_eq] at h
  exact h.1.1

/-- GEC/MAT day restriction in terms of the flag cascade. -/
theorem dayAllowed_gec {is_nstp is_pe is_practicum : Bool} {pw : Option ℕ} {d : ℕ}
    (h : dayAllowed true is_nstp is_pe is_practicum pw d = true) : d ≤ 3 := by
  simp only [dayAllowed, Bool.not_true, Bool.false_or, Bool.and_eq_true, Bool.or_eq_true,
    beq_iff_eq] at h
  rcases h.1.2 with h' | h' | h' | h' <;> omega

/-! ### Time formatting (`extract_phase_solution`'s `fmt` and periods) -/

/-- Two-digit minute rendering, Python's `f"{m:02d}"` for `0 ≤ m ≤ 59`. -/
def pad2 (m : ℤ) : String :=
  if m < 10 then "0" ++ toString m.toNat else toString m.toNat

/-- Rendering of `f"{h}:{m:02d} {ampm}"`: hour without leading zero, colon,
two-digit minute, meridiem. -/
def render12 (hh : ℕ) (m : ℤ) (ampm : String) : String :=
  toString hh ++ ":" ++ pad2 m ++ " " ++ ampm

/-- Hour/minute core of scheduler.py's `fmt`: the successive reassignments of
`h` and `ampm` in the Python function, written as chained conditionals. -/
def fmtCore (h m : ℤ) : String :=
  let ampm : String := if h < 12 then "AM" else "PM"
  let hA : ℤ := if h > 12 then h - 12 else h
  let p1 : ℤ × String := if hA = 0 then (12, "AM") else (hA, ampm)
  let p2 : String := if p1.1 = 12 ∧ p1.2 = "AM" then "PM" else p1.2
  render12 p1.1.toNat m p2

/-- scheduler.py `fmt` (inside `extract_phase_solution`): render a wall-clock
hour value on the 12-hour clock, with `h = int(t)` and `m = int((t-h)*60)`. -/
def fmt (t : ℚ) : String :=
  fmtCore (pytrunc t) (pytrunc ((t - (pytrunc t : ℚ)) * 60))

/-- Claim-side rendering (C8 as written): 12-hour clock, no leading zero on
the hour, two-digit minutes, noon as `12:MM PM`, midnight as `12:MM AM`. -/
def fmtClaimCore (h m : ℤ) : String :=
  if h = 0 then render12 12 m "AM"
  else if h < 12 then render12 h.toNat m "AM"
  else if h = 12 then render12 12 m "PM"
  else render12 (h - 12).toNat m "PM"

def fmtClaim (t : ℚ) : String :=
  fmtClaimCore (pytrunc t) (pytrunc ((t - (pytrunc t : ℚ)) * 60))

/-- Amended rendering: as the claim says except that midnight comes out as
`12:MM PM` (the last reassignment in `fmt` flips the midnight meridiem). -/
def fmtAmendedCore (h m : ℤ) : String :=
  if h = 0 then render12 12 m "PM"
  else if h < 12 then render12 h.toNat m "AM"
  else if h = 12 then render12 12 m "PM"
  else render12 (h - 12).toNat m "PM"

def fmtAmended (t : ℚ) : String :=
  fmtAmendedCore (pytrunc t) (pytrunc ((t - (pytrunc t : ℚ)) * 60))

theorem fmtCore_eq_amended (h m : ℤ) (hh0 : 0 ≤ h) (hh24 : h < 24) :
    fmtCore h m = fmtAmendedCore h m := by
  interval_cases h <;> simp [fmtCore, fmtAmendedCore]

theorem fmt_eq_fmtAmended (t : ℚ) (h0 : 0 ≤ t) (h24 : t < 24) : fmt t = fmtAmended t := by
  have hfl : pytrunc t = ⌊t⌋ := by rw [pytrunc, if_pos h0]
  have hh0 : (0:ℤ) ≤ ⌊t⌋ := Int.floor_nonneg.mpr h0
  have hh24 : ⌊t⌋ < 24 := Int.floor_lt.mpr (by exact_mod_cast h24)
  rw [fmt, fmtAmended, hfl]
  exact fmtCore_eq_amended _ _ hh0 hh24

/-- Period string of an emitted event: formatted start and end wall times. -/
def format_period (cfg : Cfg) (startSlot duration : ℕ) : String :=
  let st_f : ℚ := cfg.start_t + ((startSlot % cfg.slots_per_day : ℕ) : ℚ) * (1/2)
  let en_f : ℚ := st_f + (duration : ℚ) * (1/2)
  fmt st_f ++ " - " ++ fmt en_f

/-- Claim C7, counterexample: at `start_t = 11.5` (grid starting exactly at
11:30) the code still returns the two-slot window `{0, 1}`, while the claim
asserts the empty set for every `start_t ≥ 11.5`. -/
theorem claim_C7_counterexample :
    Cfg.lunch_slots ⟨23/2, 21, []⟩ = ({0, 1} : Finset ℤ) ∧
      Cfg.lunch_slots ⟨23/2, 21, []⟩ ≠ (∅ : Finset ℤ) := by
  with_unfolding_all decide

/-- Claim C7, amended: `lunch_slots` is the pair
`{⌊(11.5 − start_t)/0.5⌋, ⌊(11.5 − start_t)/0.5⌋ + 1}` whenever
`start_t ≤ 11.5`, and is empty exactly when `start_t > 11.5` (the boundary
`start_t = 11.5` yields the pair, not the empty set). -/
theorem claim_C7 (c : Cfg) :
    (c.start_t ≤ 23/2 →
      c.lunch_slots = ({⌊((23/2 - c.start_t) / (1/2) : ℚ)⌋,
                        ⌊((23/2 - c.start_t) / (1/2) : ℚ)⌋ + 1} : Finset ℤ)) ∧
    (23/2 < c.start_t → c.lunch_slots = (∅ : Finset ℤ)) := by
  constructor
  · intro h
    have hoff : (0:ℚ) ≤ 23/2 - c.start_t := by linarith
    have htr : pytrunc ((23/2 - c.start_t) / (1/2)) =
        ⌊((23/2 - c.start_t) / (1/2) : ℚ)⌋ := by
      rw [pytrunc, if_pos (by positivity)]
    rw [Cfg.lunch_slots]
    rw [if_pos hoff, htr]
  · intro h
    have hoff : ¬ ((0:ℚ) ≤ 23/2 - c.start_t) := by linarith
    rw [Cfg.lunch_slots]
    rw [if_neg hoff]

/-- Witness for C7 at the default grid `start_t = 7`: lunch is slots 9, 10. -/
theorem claim_C7_witness : Cfg.lunch_slots ⟨7, 21, []⟩ = ({9, 10} : Finset ℤ) := by
  have h := (claim_C7 ⟨7, 21, []⟩).1 (by norm_num)
  have h9 : ((23/2 - (7:ℚ)) / (1/2)) = 9 := by norm_num
  rw [h, h9]
  norm_num

/-! ### String helpers mirroring Python's `in`, `startswith`, `upper`, `lower` -/

def strContainsL (pat : List Char) : List Char → Bool
  | [] => pat.isEmpty
  | c :: rest => pat.isPrefixOf (c :: rest) || strContainsL pat rest

/-- Python's substring test `pat in s`. -/
def hasSubstr (s pat : String) : Bool := strContainsL pat.toList s.toList

/-- Python's `s.startswith(pat)`. -/
def strStarts (s pat : String) : Bool := pat.toList.isPrefixOf s.toList

def strUpper (s : String) : String := String.map Char.toUpper s

def strLower (s : String) : String := String.map Char.toLower s

/-! ### Sessions, model variables and the per-phase CP model -/

/-- Emitted schedule id: a plain counter value, or the `"N-A"`/`"N-B"` halves
of a shared (merged) session. -/
inductive EvId where
  | plain (n : ℕ)
  | sharedA (n : ℕ)
  | sharedB (n : ℕ)
deriving DecidableEq, Repr

/-- String rendering of a schedule id (`sid` or `f"{sid}-A"`/`f"{sid}-B"`). -/
def EvId.str : EvId → String
  | .plain n => toString n
  | .sharedA n => toString n ++ "-A"
  | .sharedB n => toString n ++ "-B"

/-- Value taken by one session's variable triple `(start, day, room)` in a
solver solution.  `rm` is meaningful only when the session has a room
variable. -/
structure VarVal where
  st : ℕ
  dy : ℕ
  rm : ℕ
deriving DecidableEq, Repr

/-- Solver solution: values for every variable group, indexed by the id
counter value used when the variables were created. -/
abbrev Asg := ℕ → VarVal

/-- One session record of the model (a dict pushed onto `phase_sessions` /
`all_sess` in scheduler.py).  `vid` identifies the underlying `(s, e, d, rv)`
variable group; the two halves of a shared session carry the same `vid`. -/
structure Sess where
  id : EvId
  vid : ℕ
  code : String
  title : String
  prog : String
  yr : ℕ
  blk : Char
  stype : String
  domain : List ℕ
  duration : ℕ
  hasRoom : Bool
  numRooms : ℕ
deriving DecidableEq, Repr

def Sess.key (s : Sess) : SectionKey := (s.prog, s.yr, s.blk)

/-- One interval pushed onto a room's interval list: a fixed blockage
(`NewFixedSizeIntervalVar`) or an optional reified interval active when the
session's room variable equals the room index in the key. -/
inductive RSpan where
  | fixed (start len : ℕ)
  | opt (vid : ℕ) (dur : ℕ)
deriving DecidableEq, Repr

/-- The per-phase CP model together with the run counters, accumulated
exactly as `solve_phase_logic` and the `create_*` helpers mutate their
dicts.  `secIvls` entries are `(section key, vid, duration)`. -/
structure Build where
  sessions : List Sess
  secIvls : List (SectionKey × ℕ × ℕ)
  roomIvls : List ((String × ℕ) × RSpan)
  chains : List (ℕ × ℕ)
  allDiffs : List (List ℕ)
  gecPairs : List (ℕ × ℕ × ℕ × ℕ)
  dailyLims : List (List (ℕ × Bool))
  roomCons : List (List ℕ)
  counter : ℕ
  early : ℕ
  late : ℕ
deriving DecidableEq, Repr

def emptyBuild (counter early late : ℕ) : Build :=
  ⟨[], [], [], [], [], [], [], [], counter, early, late⟩

/-- Room snapshot: the `normalized_rooms` map (already lower-cased and
shuffled by `load_data`), defaulting to the empty list like `.get(k, [])`. -/
abbrev Rooms := String → List String

def PHYSICAL_SESSION_LIMIT : ℕ := 6

def MAX_PHYSICAL_SESSIONS_PER_DAY : ℕ := 2

def blockLetters (n : ℕ) : List Char := (List.range n).map (fun b => Char.ofNat ('A'.toNat + b))

/-! ### SessionFactory (`create_constrained_session`, `create_shared_session`,
`create_practicum_sessions`, `create_course_sessions`) -/

/-- Loop body of `create_constrained_session`: one session with a fresh id,
its section interval, and its reified room intervals. -/
def addOneSession (rooms_avail : List String) (course : Course) (blk : Char)
    (sessType : String) (dom : List ℕ) (durationSlots : ℕ) (forceOnline : Bool)
    (acc : List Sess × Build) (i : ℕ) : List Sess × Build :=
  let (created, b) := acc
  let sid := b.counter
  let isPhys := decide (i < PHYSICAL_SESSION_LIMIT) && !forceOnline
  let hasRoom := isPhys && !rooms_avail.isEmpty
  let s : Sess :=
    { id := .plain sid, vid := sid, code := course.courseCode,
      title := course.title, prog := course.program, yr := course.yearLevel,
      blk := blk, stype := sessType, domain := dom, duration := durationSlots,
      hasRoom := hasRoom, numRooms := rooms_avail.length }
  let b' := { b with
    sessions := b.sessions ++ [s],
    secIvls := b.secIvls ++ [((course.program, course.yearLevel, blk), sid, durationSlots)],
    roomIvls := b.roomIvls ++
      (if hasRoom then (List.range rooms_avail.length).map
          (fun rid => ((strLower sessType, rid), RSpan.opt sid durationSlots)) else []),
    counter := sid + 1 }
  (created ++ [s], b')

/-- scheduler.py `create_constrained_session`. -/
def create_constrained_session (cfg : Cfg) (rooms : Rooms) (secOcc : SectionKey → Finset ℕ)
    (course : Course) (blk : Char) (sessType : String)
    (numSessions durationSlots : ℕ) (isGec isNstp isPe forceOnline : Bool)
    (b : Build) : Option (List Sess × Build) :=
  let occupied := secOcc (course.program, course.yearLevel, blk)
  let dom := get_valid_domain cfg durationSlots occupied isGec isNstp isPe false none
  if dom.isEmpty then none
  else
    let rooms_avail := rooms (strLower sessType)
    let (created, b1) := (List.range numSessions).foldl
      (addOneSession rooms_avail course blk sessType dom durationSlots forceOnline) ([], b)
    let dayVars := created.map (·.vid)
    let b2 := if dayVars.length > 1 then { b1 with allDiffs := b1.allDiffs ++ [dayVars] } else b1
    let b3 := if isGec && dayVars.length == 2 then
        match created with
        | c0 :: c1 :: _ => { b2 with gecPairs := b2.gecPairs ++ [(c0.vid, c1.vid, c0.vid, c1.vid)] }
        | _ => b2
      else b2
    some (created, b3)

/-- Loop body of `create_shared_session`: one merged session producing the
`-A`/`-B` record pair over a single variable group. -/
def addOneShared (rooms_avail : List String) (course : Course) (blk1 blk2 : Char)
    (sessType : String) (dom : List ℕ) (durationSlots : ℕ)
    (acc : List Sess × List ℕ × Build) (i : ℕ) : List Sess × List ℕ × Build :=
  let (created, dayVars, b) := acc
  let sid := b.counter
  let isPhys := decide (i < PHYSICAL_SESSION_LIMIT)
  let hasRoom := isPhys && !rooms_avail.isEmpty
  let sA : Sess :=
    { id := .sharedA sid, vid := sid, code := course.courseCode,
      title := course.title, prog := course.program, yr := course.yearLevel,
      blk := blk1, stype := sessType, domain := dom, duration := durationSlots,
      hasRoom := hasRoom, numRooms := rooms_avail.length }
  let sB : Sess := { sA with id := .sharedB sid, blk := blk2 }
  let b' := { b with
    sessions := b.sessions ++ [sA, sB],
    secIvls := b.secIvls ++
      [((course.program, course.yearLevel, blk1), sid, durationSlots),
       ((course.program, course.yearLevel, blk2), sid, durationSlots)],
    roomIvls := b.roomIvls ++
      (if hasRoom then (List.range rooms_avail.length).map
          (fun rid => ((strLower sessType, rid), RSpan.opt sid durationSlots)) else []),
    counter := sid + 1 }
  (created ++ [sA, sB], dayVars ++ [sid], b')

/-- scheduler.py `create_shared_session` (block-merged lecture). -/
def create_shared_session (cfg : Cfg) (rooms : Rooms) (secOcc : SectionKey → Finset ℕ)
    (course : Course) (blk1 blk2 : Char) (sessType : String)
    (numSessions durationSlots : ℕ) (isGec isNstp : Bool)
    (b : Build) : Option (List Sess × Build) :=
  let occ := secOcc (course.program, course.yearLevel, blk1) ∪
             secOcc (course.program, course.yearLevel, blk2)
  let dom := get_valid_domain cfg durationSlots occ isGec isNstp false false none
  if dom.isEmpty then none
  else
    let rooms_avail := rooms (strLower sessType)
    let (created, dayVars, b1) := (List.range numSessions).foldl
      (addOneShared rooms_avail course blk1 blk2 sessType dom durationSlots) ([], [], b)
    let b2 := if dayVars.length > 1 then { b1 with allDiffs := b1.allDiffs ++ [dayVars] } else b1
    let b3 := if isGec && dayVars.length == 2 then
        match dayVars, created with
        | d0 :: d1 :: _, c0 :: c1 :: _ =>
          { b2 with gecPairs := b2.gecPairs ++ [(d0, d1, c0.vid, c1.vid)] }
        | _, _ => b2
      else b2
    some (created, b3)

/-! ### Practicum path -/

/-- Practicum weekly load: `unitsLab * 3 + unitsLecture`, defaulting to 6
when zero. -/
def practicum_total_hours (course : Course) : ℚ :=
  let th := course.unitsLab * 3 + course.unitsLecture
  if th = 0 then 6 else th

/-- Number of consecutive practicum days: 3 when the load exceeds 18 hours,
else 2. -/
def practicum_num_days (course : Course) : ℕ :=
  if practicum_total_hours course > 18 then 3 else 2

/-- Slots per practicum day: `ceil((total_hours / num_days) / 0.5)`. -/
def practicum_slots_per_day (course : Course) : ℕ :=
  (⌈(practicum_total_hours course / (practicum_num_days course : ℚ)) / (1/2)⌉).toNat

/-- Loop body of the per-day loop in `create_practicum_sessions`: one
room-less practicum session chained to the previous day variable. -/
def addOnePracticum (course : Course) (blk : Char) (dom : List ℕ) (dur : ℕ)
    (acc : List Sess × Build) (i : ℕ) : List Sess × Build :=
  let (created, b) := acc
  let sid := b.counter
  let s : Sess :=
    { id := .plain sid, vid := sid, code := course.courseCode,
      title := course.title, prog := course.program, yr := course.yearLevel,
      blk := blk, stype := "practicum", domain := dom, duration := dur,
      hasRoom := false, numRooms := 0 }
  let b' := { b with
    sessions := b.sessions ++ [s],
    secIvls := b.secIvls ++ [((course.program, course.yearLevel, blk), sid, dur)],
    chains := b.chains ++
      (match created.getLast? with
       | some p => [(p.vid, sid)]
       | none => []),
    counter := sid + 1 }
  (created ++ [s], b')

/-- Per-block body of `create_practicum_sessions`: pick the balancing window,
fall back to the other window on an empty domain, fail if both are empty,
bump the chosen-window counter, then create `numDays` chained sessions. -/
def practicum_block (cfg : Cfg) (secOcc : SectionKey → Finset ℕ) (course : Course)
    (numDays slotsPerDay : ℕ) (blk : Char) (b : Build) : Option (List Sess × Build) :=
  let occupied := secOcc (course.program, course.yearLevel, blk)
  let target0 : ℕ := if b.early ≤ b.late then 0 else 1
  let dom1 := get_valid_domain cfg slotsPerDay occupied false false false true (some target0)
  let dt : List ℕ × ℕ :=
    if dom1.isEmpty then
      (get_valid_domain cfg slotsPerDay occupied false false false true (some (1 - target0)),
       1 - target0)
    else (dom1, target0)
  if dt.1.isEmpty then none
  else
    let b1 := if dt.2 == 0 then { b with early := b.early + 1 } else { b with late := b.late + 1 }
    some ((List.range numDays).foldl (addOnePracticum course blk dt.1 slotsPerDay) ([], b1))

def practicumBlocks (cfg : Cfg) (secOcc : SectionKey → Finset ℕ) (course : Course)
    (numDays slotsPerDay : ℕ) : List Char → List Sess × Build → Option (List Sess × Build)
  | [], acc => some acc
  | blk :: rest, (acc, b) =>
    match practicum_block cfg secOcc course numDays slotsPerDay blk b with
    | none => none
    | some (l, b') => practicumBlocks cfg secOcc course numDays slotsPerDay rest (acc ++ l, b')

/-- scheduler.py `create_practicum_sessions`. -/
def create_practicum_sessions (cfg : Cfg) (secOcc : SectionKey → Finset ℕ)
    (course : Course) (b : Build) : Option (List Sess × Build) :=
  practicumBlocks cfg secOcc course (practicum_num_days course)
    (practicum_slots_per_day course) (blockLetters course.blocks) ([], b)

/-! ### Non-practicum course assembly -/

/-- Lecture session count and duration (`create_course_sessions`); the final
`count > 2` guard of the source is unreachable since `count ≤ 2` already. -/
def lectureCountDur (is_pe is_nstp : Bool) (total_slots : ℕ) : ℕ × ℕ :=
  if is_pe then
    if total_slots > 8 then (2, total_slots / 2) else (1, total_slots)
  else
    let cd := if total_slots > 3 && !is_nstp then (2, total_slots / 2) else (1, total_slots)
    if cd.1 > 2 then (2, total_slots / 2) else cd

/-- Lab session count and duration (`create_course_sessions`). -/
def labCountDur (lab_u : ℚ) : ℕ × ℕ :=
  if lab_u = 1 then (2, 3)
  else (2, (pytrunc (lab_u * 6)).toNat / 2)

/-- The block-pair merging loop of `create_course_sessions` (lecture part).
A successful merge consumes blocks `i` and `i+1`; a failed merge (empty
shared domain) falls back to a per-block session for block `i`. -/
def lectureBlocks (cfg : Cfg) (rooms : Rooms) (secOcc : SectionKey → Finset ℕ)
    (course : Course) (should_merge is_gec is_nstp is_pe : Bool)
    (count dur : ℕ) (i : ℕ) (acc : List Sess) (b : Build) : Option (List Sess × Build) :=
  if h : i < course.blocks then
    let blk := Char.ofNat ('A'.toNat + i)
    if should_merge && decide (i + 1 < course.blocks) then
      match create_shared_session cfg rooms secOcc course blk (Char.ofNat ('A'.toNat + (i + 1)))
        "lecture" count dur is_gec is_nstp b with
      | some (ms, b') =>
        lectureBlocks cfg rooms secOcc course should_merge is_gec is_nstp is_pe
          count dur (i + 2) (acc ++ ms) b'
      | none =>
        match create_constrained_session cfg rooms secOcc course blk "lecture" count dur
          is_gec is_nstp is_pe false b with
        | none => none
        | some (cs, b') =>
          lectureBlocks cfg rooms secOcc course should_merge is_gec is_nstp is_pe
            count dur (i + 1) (acc ++ cs) b'
    else
      match create_constrained_session cfg rooms secOcc course blk "lecture" count dur
        is_gec is_nstp is_pe false b with
      | none => none
      | some (cs, b') =>
        lectureBlocks cfg rooms secOcc course should_merge is_gec is_nstp is_pe
          count dur (i + 1) (acc ++ cs) b'
  else some (acc, b)
termination_by course.blocks - i
decreasing_by all_goals omega

def labBlocks (cfg : Cfg) (rooms : Rooms) (secOcc : SectionKey → Finset ℕ)
    (course : Course) (count dur : ℕ) : List Char → List Sess × Build → Option (List Sess × Build)
  | [], acc => some acc
  | blk :: rest, (acc, b) =>
    match create_constrained_session cfg rooms secOcc course blk "lab" count dur
      false false false false b with
    | none => none
    | some (cs, b') => labBlocks cfg rooms secOcc course count dur rest (acc ++ cs, b')

/-- scheduler.py `add_daily_limits`, applied per block over the course's
session records: the constraint group stores each session's variable id and
whether it carries a room variable. -/
def addDailyLimits (letters : List Char) (allSess : List Sess) (b : Build) : Build :=
  letters.foldl (fun bb blk =>
    let blkSess := allSess.filter (fun s => s.blk == blk)
    if blkSess.isEmpty then bb
    else { bb with dailyLims := bb.dailyLims ++ [blkSess.map (fun s => (s.vid, s.hasRoom))] }) b

/-- scheduler.py `create_course_sessions`. -/
def create_course_sessions (cfg : Cfg) (rooms : Rooms) (secOcc : SectionKey → Finset ℕ)
    (course : Course) (b : Build) : Option (List Sess × Build) :=
  let code := course.courseCode
  if hasSubstr (strUpper course.title) "PRACTICUM" || hasSubstr code "422" || hasSubstr code "131" then
    create_practicum_sessions cfg secOcc course b
  else
    let letters := blockLetters course.blocks
    let is_nstp := hasSubstr code "NSTP"
    let is_gec := strStarts code "GEC" || strStarts code "MAT"
    let is_pe := hasSubstr code "PE" || hasSubstr code "PATHFIT"
    let lecRes :=
      if 0 < course.unitsLecture then
        let should_merge := (course.yearLevel == 1 || course.yearLevel == 2) || is_nstp
        let total_slots := (pytrunc (course.unitsLecture * 2)).toNat
        let cd := lectureCountDur is_pe is_nstp total_slots
        lectureBlocks cfg rooms secOcc course should_merge is_gec is_nstp is_pe cd.1 cd.2 0 [] b
      else some ([], b)
    match lecRes with
    | none => none
    | some (sessL, b1) =>
      let labRes :=
        if 0 < course.unitsLab then
          let cd := labCountDur course.unitsLab
          labBlocks cfg rooms secOcc course cd.1 cd.2 letters (sessL, b1)
        else some (sessL, b1)
      match labRes with
      | none => none
      | some (allSess, b2) => some (allSess, addDailyLimits letters allSess b2)

/-! ### PhaseSolver: model semantics, blockage injection, room consistency -/

/-- Run-wide mutable scheduler state: the room-occupancy ledger (an
insertion-ordered association list like the Python `defaultdict`), the
section-occupancy ledger, the id counter and the practicum load counters. -/
structure St where
  occupiedSlots : List ((String × ℕ) × Finset ℕ)
  sectionOccupied : SectionKey → Finset ℕ
  counter : ℕ
  early : ℕ
  late : ℕ

def runsFrom (s cur : ℕ) : List ℕ → List (ℕ × ℕ)
  | [] => [(s, cur - s + 1)]
  | y :: ys => if y == cur + 1 then runsFrom s y ys else (s, cur - s + 1) :: runsFrom y y ys

/-- Coalesce a sorted slot list into `(start, length)` runs, as the blockage
loop of `solve_phase_logic` does. -/
def slotRuns : List ℕ → List (ℕ × ℕ)
  | [] => []
  | x :: xs => runsFrom x x xs

/-- Prior-phase room occupancy injected as fixed intervals. -/
def blockages (occ : List ((String × ℕ) × Finset ℕ)) : List ((String × ℕ) × RSpan) :=
  occ.flatMap (fun p =>
    if p.2 = ∅ then []
    else (slotRuns (p.2.sort (· ≤ ·))).map (fun r => (p.1, RSpan.fixed r.1 r.2)))

def consKeys (phys : List Sess) : List (String × Char × String) :=
  phys.foldl (fun ks s =>
    let k := (s.code, s.blk, s.stype)
    if ks.contains k then ks else ks ++ [k]) []

/-- scheduler.py `add_room_consistency`: group the room variables of physical
sessions by `(courseCode, block, kind)`; groups of size at least two are
constrained all-equal. -/
def roomConsGroups (sessions : List Sess) : List (List ℕ) :=
  let phys := sessions.filter (·.hasRoom)
  ((consKeys phys).map (fun k =>
    (phys.filter (fun s => (s.code, s.blk, s.stype) == k)).map (·.vid))).filter
    (fun g => g.length > 1)

def coursesFold (cfg : Cfg) (rooms : Rooms) (secOcc : SectionKey → Finset ℕ) :
    List Course → Build → Option Build
  | [], b => some b
  | c :: rest, b =>
    match create_course_sessions cfg rooms secOcc c b with
    | none => none
    | some (_, b') => coursesFold cfg rooms secOcc rest b'

/-- Model assembly of `solve_phase_logic`: blockage injection, session
creation for every course of the phase, room-consistency groups. -/
def buildPhase (cfg : Cfg) (rooms : Rooms) (st : St) (courses : List Course) : Option Build :=
  let b0 := { emptyBuild st.counter st.early st.late with roomIvls := blockages st.occupiedSlots }
  match coursesFold cfg rooms st.sectionOccupied courses b0 with
  | none => none
  | some b => some { b with roomCons := roomConsGroups b.sessions }

/-- Global slot range of a section interval under a solution. -/
def slotsIvl (σ : Asg) (e : SectionKey × ℕ × ℕ) : Finset ℕ :=
  Finset.Ico (σ e.2.1).st ((σ e.2.1).st + e.2.2)

/-- Whether a room interval is present: fixed blockages always are, optional
intervals when the session's room variable picks this room index. -/
def rspanActive (σ : Asg) (e : (String × ℕ) × RSpan) : Bool :=
  match e.2 with
  | .fixed _ _ => true
  | .opt vid _ => (σ vid).rm == e.1.2

def rspanSlots (σ : Asg) (e : (String × ℕ) × RSpan) : Finset ℕ :=
  match e.2 with
  | .fixed s l => Finset.Ico s (s + l)
  | .opt vid dur => Finset.Ico (σ vid).st ((σ vid).st + dur)

/-- Satisfaction of the CP model built for one phase: per-variable domain,
day-range bracketing and room bounds; `AddNoOverlap` on every section and
room interval list; practicum day chaining; all-different days; GEC/MAT
day-pairing with start-offset congruence; daily physical caps; and room
consistency. -/
def SatModel (cfg : Cfg) (b : Build) (σ : Asg) : Prop :=
  (∀ s ∈ b.sessions,
    (σ s.vid).st ∈ s.domain ∧
    (σ s.vid).dy < cfg.numDays ∧
    (σ s.vid).dy * cfg.slots_per_day ≤ (σ s.vid).st ∧
    (σ s.vid).st < ((σ s.vid).dy + 1) * cfg.slots_per_day ∧
    (σ s.vid).st + s.duration ≤ cfg.total_inc ∧
    (s.hasRoom = true → (σ s.vid).rm < s.numRooms)) ∧
  List.Pairwise (fun e1 e2 => e1.1 = e2.1 → Disjoint (slotsIvl σ e1) (slotsIvl σ e2)) b.secIvls ∧
  List.Pairwise (fun e1 e2 => e1.1 = e2.1 → rspanActive σ e1 = true → rspanActive σ e2 = true →
    Disjoint (rspanSlots σ e1) (rspanSlots σ e2)) b.roomIvls ∧
  (∀ p ∈ b.chains, (σ p.2).dy = (σ p.1).dy + 1) ∧
  (∀ g ∈ b.allDiffs, List.Pairwise (fun v1 v2 => (σ v1).dy ≠ (σ v2).dy) g) ∧
  (∀ q ∈ b.gecPairs,
    ((σ q.1).dy, (σ q.2.1).dy) ∈ [(0, 1), (1, 0), (2, 3), (3, 2)] ∧
    (σ q.2.2.1).st % cfg.slots_per_day = (σ q.2.2.2).st % cfg.slots_per_day) ∧
  (∀ L ∈ b.dailyLims, ∀ d, d < cfg.numDays →
    (L.filter (fun p => p.2 && ((σ p.1).dy == d))).length ≤ MAX_PHYSICAL_SESSIONS_PER_DAY) ∧
  (∀ g ∈ b.roomCons, ∀ v ∈ g, (σ v).rm = (σ (g.headD 0)).rm)

instance (cfg : Cfg) (b : Build) (σ : Asg) : Decidable (SatModel cfg b σ) := by
  unfold SatModel
  infer_instance

/-! ### Extraction (`extract_phase_solution`) and the occupancy ledger -/

/-- Emitted schedule event.  The `startSlot`, `duration`, `roomType` and
`roomIdx` fields model the `_start_slot`/`_duration`/`_room_type`/`_room_idx`
bookkeeping entries (popped from the dict at the end of `solve`, but needed
for the ledger update). -/
structure Event where
  schedule_id : EvId
  courseCode : String
  baseCourseCode : String
  title : String
  program : String
  year : ℕ
  session : String
  block : Char
  day : String
  dayIdx : ℕ
  period : String
  room : String
  startSlot : ℕ
  duration : ℕ
  roomType : Option String
  roomIdx : ℤ
deriving DecidableEq, Repr

/-- One event of `extract_phase_solution` (the scheduled day index is kept in
`dayIdx` alongside its rendered name). -/
def extractEvent (cfg : Cfg) (rooms : Rooms) (σ : Asg) (s : Sess) : Event :=
  let avail := rooms (strLower s.stype)
  { schedule_id := s.id, courseCode := s.code, baseCourseCode := s.code,
    title := s.title, program := s.prog, year := s.yr,
    session := if s.stype == "lecture" then "Lecture"
               else if s.stype == "practicum" then "Practicum" else "Laboratory",
    block := s.blk,
    day := cfg.days.getD (σ s.vid).dy "",
    dayIdx := (σ s.vid).dy,
    period := format_period cfg (σ s.vid).st s.duration,
    room := if s.hasRoom then
              (if (σ s.vid).rm < avail.length then avail.getD (σ s.vid).rm "online" else "online")
            else "online",
    startSlot := (σ s.vid).st,
    duration := s.duration,
    roomType := if s.hasRoom then some (strLower s.stype) else none,
    roomIdx := if s.hasRoom then ((σ s.vid).rm : ℤ) else -1 }

/-- The practicum load-balancing tracker inside `extract_phase_solution`:
day indices 0..2 bump the early-week counter, the rest the late-week one. -/
def extractLoads (σ : Asg) (sessions : List Sess) (early late : ℕ) : ℕ × ℕ :=
  sessions.foldl (fun el s =>
    if s.stype == "practicum" then
      if (σ s.vid).dy ≤ 2 then (el.1 + 1, el.2) else (el.1, el.2 + 1)
    else el) (early, late)

def assocUpdate (l : List ((String × ℕ) × Finset ℕ)) (k : String × ℕ) (slots : Finset ℕ) :
    List ((String × ℕ) × Finset ℕ) :=
  if l.any (fun p => p.1 == k) then
    l.map (fun p => if p.1 == k then (p.1, p.2 ∪ slots) else p)
  else l ++ [(k, slots)]

/-- One step of `update_occupancy_from_schedule`. -/
def updateOccEvent (st : St) (e : Event) : St :=
  let sk : SectionKey := (e.program, e.year, e.block)
  let slots := Finset.Ico e.startSlot (e.startSlot + e.duration)
  let st1 : St := { st with sectionOccupied := fun k =>
      if k = sk then st.sectionOccupied k ∪ slots else st.sectionOccupied k }
  match e.roomType with
  | some rt =>
    if rt ≠ "" ∧ e.roomIdx ≠ -1 then
      { st1 with occupiedSlots := assocUpdate st1.occupiedSlots (rt, e.roomIdx.toNat) slots }
    else st1
  | none => st1

def update_occupancy_from_schedule (st : St) (evs : List Event) : St :=
  evs.foldl updateOccEvent st

/-! ### Orchestration (`solve_phase_logic` outcome, `solve`) -/

/-- One phase: build the model; the phase succeeds iff the supplied solver
solution satisfies it, in which case the events are extracted and the
ledgers updated. -/
def solvePhase (cfg : Cfg) (rooms : Rooms) (st : St) (courses : List Course) (σ : Asg) :
    Option (List Event × St) :=
  match buildPhase cfg rooms st courses with
  | none => none
  | some b =>
    if SatModel cfg b σ then
      let evs := b.sessions.map (extractEvent cfg rooms σ)
      let loads := extractLoads σ b.sessions b.early b.late
      let st1 : St := { occupiedSlots := st.occupiedSlots,
                        sectionOccupied := st.sectionOccupied,
                        counter := b.counter, early := loads.1, late := loads.2 }
      some (evs, update_occupancy_from_schedule st1 evs)
    else none

inductive SchedulingPhase where
  | NSTP | GEC_MAT | MAJORS_Y4 | MAJORS_Y3 | MAJORS_Y2 | MAJORS_Y1 | PE
deriving DecidableEq, Repr

def SchedulingPhase.value : SchedulingPhase → ℕ
  | .NSTP => 1
  | .GEC_MAT => 2
  | .MAJORS_Y4 => 3
  | .MAJORS_Y3 => 4
  | .MAJORS_Y2 => 5
  | .MAJORS_Y1 => 6
  | .PE => 7

/-- The seven phases in ascending `value` order. -/
def phaseOrder : List SchedulingPhase :=
  [.NSTP, .GEC_MAT, .MAJORS_Y4, .MAJORS_Y3, .MAJORS_Y2, .MAJORS_Y1, .PE]

/-- Phase classification cascade of `prioritize_and_partition_courses`
(performed on the upper-cased course code). -/
def classify (course : Course) : SchedulingPhase :=
  let code := strUpper course.courseCode
  if hasSubstr code "NSTP" then .NSTP
  else if strStarts code "GEC" || strStarts code "MAT" then .GEC_MAT
  else if hasSubstr code "PE" || hasSubstr code "PATHFIT" then .PE
  else
    match course.yearLevel with
    | 1 => .MAJORS_Y1
    | 2 => .MAJORS_Y2
    | 3 => .MAJORS_Y3
    | 4 => .MAJORS_Y4
    | _ => .MAJORS_Y1

/-- Priority score `(0 if lab==0 else 1000) + blocks*100 + (lec+lab)*10`. -/
def pscore (c : Course) : ℚ :=
  (if c.unitsLab = 0 then 0 else 1000) + (c.blocks : ℚ) * 100 +
    (c.unitsLecture + c.unitsLab) * 10

/-- Stable descending insertion (Python's stable `sort(reverse=True)`): an
element goes after every earlier element of greater-or-equal score. -/
def insertDesc (x : ℚ × Course) : List (ℚ × Course) → List (ℚ × Course)
  | [] => [x]
  | y :: ys => if y.1 < x.1 then x :: y :: ys else y :: insertDesc x ys

def sortDescSc (l : List (ℚ × Course)) : List (ℚ × Course) :=
  l.foldl (fun acc x => insertDesc x acc) []

/-- scheduler.py `prioritize_and_partition_courses`. -/
def prioritize_and_partition (courses : List Course) : List (SchedulingPhase × Course) :=
  phaseOrder.flatMap (fun p =>
    (sortDescSc ((courses.filter (fun c => classify c == p)).map (fun c => (pscore c, c)))).map
      (fun x => (p, x.2)))

/-- The phase regrouping at the top of `solve` (empty phases are skipped). -/
def phaseGroups (l : List (SchedulingPhase × Course)) : List (List Course) :=
  (phaseOrder.map (fun p => (l.filter (fun x => x.1 == p)).map (·.2))).filter
    (fun g => !g.isEmpty)

/-- The phase loop of `solve`: each phase consumes one solver solution; any
failing phase aborts the whole run. -/
def runPhases (cfg : Cfg) (rooms : Rooms) :
    St → List (List Course) → List Asg → Option (List Event × St)
  | st, [], _ => some ([], st)
  | st, cs :: rest, σ :: σs =>
    match solvePhase cfg rooms st cs σ with
    | none => none
    | some (evs, st') =>
      match runPhases cfg rooms st' rest σs with
      | none => none
      | some (evs', st'') => some (evs ++ evs', st'')
  | _, _ :: _, [] => none

/-- Initial run state (`HierarchicalScheduler.__init__`). -/
def st0 : St :=
  { occupiedSlots := [], sectionOccupied := fun _ => ∅, counter := 1, early := 0, late := 0 }

/-- Full successful run of `solve`, with the CP solver modelled by the
per-phase solutions `σs`: the run yields events iff every phase's model is
satisfied by its listed solution. -/
def solveAll (cfg : Cfg) (rooms : Rooms) (courses : List Course) (σs : List Asg) :
    Option (List Event) :=
  match runPhases cfg rooms st0 (phaseGroups (prioritize_and_partition courses)) σs with
  | none => none
  | some (evs, _) => some evs

/-! ### Claim C4: DomainBuilder correctness -/

/-- Claim C4: `get_valid_domain` returns all strict (lunch-free) candidates
followed by all relaxed (lunch-touching) ones, where a candidate global start
is kept iff its day passes the category day restriction, its in-day offset
lies in the category offset set (GEC/MAT `{0,3,6,11,14,17,21,24}`, NSTP
`{4,12,16}`, PE adjacency offsets, otherwise `0 .. slots_per_day − duration`),
its slot range stays within the day, and it misses `occupied_slots`. -/
theorem claim_C4 (cfg : Cfg) (duration : ℕ) (occupied : Finset ℕ)
    (is_gec is_nstp is_pe is_practicum : Bool) (pw : Option ℕ) (base : ℕ) :
    (get_valid_domain cfg duration occupied is_gec is_nstp is_pe is_practicum pw =
      domainSpecStrict cfg duration occupied is_gec is_nstp is_pe is_practicum pw ++
      domainSpecRelaxed cfg duration occupied is_gec is_nstp is_pe is_practicum pw) ∧
    (is_gec = true → is_pe = false →
      allowedOffsets cfg.slots_per_day duration occupied base is_gec is_nstp is_pe =
        [0, 3, 6, 11, 14, 17, 21, 24]) ∧
    (is_nstp = true → is_gec = false → is_pe = false →
      allowedOffsets cfg.slots_per_day duration occupied base is_gec is_nstp is_pe =
        [4, 12, 16]) ∧
    (is_gec = false → is_nstp = false → is_pe = false →
      allowedOffsets cfg.slots_per_day duration occupied base is_gec is_nstp is_pe =
        List.range (cfg.slots_per_day + 1 - duration)) := by
  refine ⟨get_valid_domain_eq_spec cfg duration occupied is_gec is_nstp is_pe is_practicum pw,
    ?_, ?_, ?_⟩
  · intro hg hp
    simp [allowedOffsets, hg, hp, gec_strict_offsets]
  · intro hn hg hp
    simp [allowedOffsets, hn, hg, hp, nstp_strict_offsets]
  · intro hg hn hp
    simp [allowedOffsets, hg, hn, hp]

/-- Witness for C4 on the default grid with GEC flags. -/
theorem claim_C4_witness :
    (get_valid_domain ⟨7, 21, ["M", "T", "W", "R", "F", "S"]⟩ 3 ∅ true false false false none =
      domainSpecStrict ⟨7, 21, ["M", "T", "W", "R", "F", "S"]⟩ 3 ∅ true false false false none ++
      domainSpecRelaxed ⟨7, 21, ["M", "T", "W", "R", "F", "S"]⟩ 3 ∅ true false false false none) ∧
    allowedOffsets (Cfg.slots_per_day ⟨7, 21, ["M", "T", "W", "R", "F", "S"]⟩) 3 ∅ 0
      true false false = [0, 3, 6, 11, 14, 17, 21, 24] :=
  ⟨(claim_C4 ⟨7, 21, ["M", "T", "W", "R", "F", "S"]⟩ 3 ∅ true false false false none 0).1,
   (claim_C4 ⟨7, 21, ["M", "T", "W", "R", "F", "S"]⟩ 3 ∅ true false false false none 0).2.1 rfl rfl⟩

/-! ### Claim C5: practicum construction -/

theorem practicum_block_none_iff (cfg : Cfg) (secOcc : SectionKey → Finset ℕ)
    (course : Course) (nd sp : ℕ) (blk : Char) (b : Build) :
    practicum_block cfg secOcc course nd sp blk b = none ↔
      (get_valid_domain cfg sp (secOcc (course.program, course.yearLevel, blk))
        false false false true (some 0) = [] ∧
       get_valid_domain cfg sp (secOcc (course.program, course.yearLevel, blk))
        false false false true (some 1) = []) := by
  unfold practicum_block
  dsimp only
  by_cases he : b.early ≤ b.late
  · simp only [if_pos he]
    by_cases h0 : get_valid_domain cfg sp (secOcc (course.program, course.yearLevel, blk))
        false false false true (some 0) = []
    · simp [h0, List.isEmpty_iff]
    · simp [List.isEmpty_iff, h0]
  · simp only [if_neg he]
    by_cases h1 : get_valid_domain cfg sp (secOcc (course.program, course.yearLevel, blk))
        false false false true (some 1) = []
    · simp [h1, List.isEmpty_iff]
    · simp [List.isEmpty_iff, h1]

theorem practicumBlocks_none_iff (cfg : Cfg) (secOcc : SectionKey → Finset ℕ)
    (course : Course) (nd sp : ℕ) (letters : List Char) :
    ∀ (acc : List Sess) (b : Build),
    (practicumBlocks cfg secOcc course nd sp letters (acc, b) = none ↔
      ∃ bl ∈ letters,
        get_valid_domain cfg sp (secOcc (course.program, course.yearLevel, bl))
          false false false true (some 0) = [] ∧
        get_valid_domain cfg sp (secOcc (course.program, course.yearLevel, bl))
          false false false true (some 1) = []) := by
  induction letters with
  | nil => simp [practicumBlocks]
  | cons blk rest ih =>
    intro acc b
    rw [practicumBlocks]
    rcases hpb : practicum_block cfg secOcc course nd sp blk b with _ | ⟨l, b'⟩
    · rw [practicum_block_none_iff] at hpb
      simp [hpb]
    · have hne := (practicum_block_none_iff cfg secOcc course nd sp blk b).not.mp
        (by simp [hpb])
      rw [ih]
      constructor
      · intro ⟨bl, hbl, hw⟩
        exact ⟨bl, List.mem_cons_of_mem _ hbl, hw⟩
      · intro ⟨bl, hbl, hw⟩
        rcases List.mem_cons.mp hbl with rfl | hbl
        · exact absurd ⟨hw.1, hw.2⟩ hne
        · exact ⟨bl, hbl, hw⟩

/-- The session created by the `i`-th iteration of the practicum day loop
when the counter started at `c0`. -/
def psess (course : Course) (blk : Char) (dom : List ℕ) (dur : ℕ) (c0 i : ℕ) : Sess :=
  { id := .plain (c0 + i), vid := c0 + i, code := course.courseCode,
    title := course.title, prog := course.program, yr := course.yearLevel,
    blk := blk, stype := "practicum", domain := dom, duration := dur,
    hasRoom := false, numRooms := 0 }

theorem addOnePracticum_fold (course : Course) (blk : Char) (dom : List ℕ) (dur : ℕ)
    (b : Build) (n : ℕ) :
    (List.range n).foldl (addOnePracticum course blk dom dur) ([], b) =
      ((List.range n).map (psess course blk dom dur b.counter),
       { b with
         sessions := b.sessions ++ (List.range n).map (psess course blk dom dur b.counter),
         secIvls := b.secIvls ++ (List.range n).map
           (fun i => ((course.program, course.yearLevel, blk), b.counter + i, dur)),
         chains := b.chains ++ (List.range (n - 1)).map
           (fun i => (b.counter + i, b.counter + i + 1)),
         counter := b.counter + n }) := by
  induction n with
  | zero => simp
  | succ n ih =>
    rw [List.range_succ, List.foldl_append, ih]
    simp only [List.foldl_cons, List.foldl_nil, addOnePracticum]
    cases n with
    | zero => simp [psess]
    | succ m =>
      have hlast : ((List.range (m + 1)).map
          (psess course blk dom dur b.counter)).getLast? =
          some (psess course blk dom dur b.counter m) := by
        rw [List.range_succ, List.map_append]
        simp
      simp only [hlast]
      simp [psess, List.range_succ, List.append_assoc, Nat.add_sub_cancel, Prod.mk.injEq,
        Build.mk.injEq, Nat.add_assoc]

theorem practicum_block_some (cfg : Cfg) (secOcc : SectionKey → Finset ℕ) (course : Course)
    (nd sp : ℕ) (blk : Char) (b : Build) (l : List Sess) (b' : Build)
    (h : practicum_block cfg secOcc course nd sp blk b = some (l, b')) :
    ∃ w : ℕ,
      w = (if (get_valid_domain cfg sp (secOcc (course.program, course.yearLevel, blk))
              false false false true (some (if b.early ≤ b.late then 0 else 1))) = []
           then 1 - (if b.early ≤ b.late then 0 else 1)
           else (if b.early ≤ b.late then 0 else 1)) ∧
      l = (List.range nd).map (psess course blk
            (get_valid_domain cfg sp (secOcc (course.program, course.yearLevel, blk))
              false false false true (some w)) sp b.counter) ∧
      b'.chains = b.chains ++ (List.range (nd - 1)).map
        (fun i => (b.counter + i, b.counter + i + 1)) ∧
      b'.counter = b.counter + nd ∧
      b'.sessions = b.sessions ++ l ∧
      b'.secIvls = b.secIvls ++ (List.range nd).map
        (fun i => ((course.program, course.yearLevel, blk), b.counter + i, sp)) ∧
      b'.roomIvls = b.roomIvls ∧
      b'.allDiffs = b.allDiffs ∧
      b'.gecPairs = b.gecPairs ∧
      b'.dailyLims = b.dailyLims ∧
      b'.roomCons = b.roomCons := by
  unfold practicum_block at h
  dsimp only at h
  by_cases he : b.early ≤ b.late
  · rw [if_pos he] at h
    by_cases h0 : (get_valid_domain cfg sp (secOcc (course.program, course.yearLevel, blk))
        false false false true (some 0)).isEmpty
    · rw [if_pos h0] at h
      dsimp only at h
      by_cases h1 : (get_valid_domain cfg sp (secOcc (course.program, course.yearLevel, blk))
          false false false true (some (1 - 0))).isEmpty
      · rw [if_pos h1] at h
        exact absurd h (by simp)
      · rw [if_neg h1, addOnePracticum_fold] at h
        refine ⟨1, ?_, ?_⟩
        · rw [if_pos he, if_pos (List.isEmpty_iff.mp h0)]
        · obtain ⟨rfl, rfl⟩ := Prod.mk.injEq .. ▸ Option.some.injEq .. ▸ h
          simp
    · rw [if_neg h0, if_neg h0, addOnePracticum_fold] at h
      refine ⟨0, ?_, ?_⟩
      · rw [if_pos he, if_neg (by simpa [List.isEmpty_iff] using h0)]
      · obtain ⟨rfl, rfl⟩ := Prod.mk.injEq .. ▸ Option.some.injEq .. ▸ h
        simp
  · rw [if_neg he] at h
    by_cases h1 : (get_valid_domain cfg sp (secOcc (course.program, course.yearLevel, blk))
        false false false true (some 1)).isEmpty
    · rw [if_pos h1] at h
      dsimp only at h
      by_cases h0 : (get_valid_domain cfg sp (secOcc (course.program, course.yearLevel, blk))
          false false false true (some (1 - 1))).isEmpty
      · rw [if_pos h0] at h
        exact absurd h (by simp)
      · rw [if_neg h0, addOnePracticum_fold] at h
        refine ⟨0, ?_, ?_⟩
        · rw [if_neg he, if_pos (List.isEmpty_iff.mp h1)]
        · obtain ⟨rfl, rfl⟩ := Prod.mk.injEq .. ▸ Option.some.injEq .. ▸ h
          simp
    · rw [if_neg h1, if_neg h1, addOnePracticum_fold] at h
      refine ⟨1, ?_, ?_⟩
      · rw [if_neg he, if_neg (by simpa [List.isEmpty_iff] using h1)]
      · obtain ⟨rfl, rfl⟩ := Prod.mk.injEq .. ▸ Option.some.injEq .. ▸ h
        simp

/-- Claim C5: practicum construction.  Total hours are `unitsLab·3 +
unitsLecture` with fallback 6 when zero; `num_days` is 3 when the total
exceeds 18 hours, else 2; each daily session lasts
`ceil((total_hours/num_days)/0.5)` slots; per block the `num_days` sessions
share one start-slot domain and are chained by `day_i = day_{i−1} + 1`; the
initial window is 0 iff `early ≤ late`, the other window is tried when the
domain is empty, and the whole construction fails (returns `none`) iff some
block has both window domains empty. -/
theorem claim_C5 (cfg : Cfg) (secOcc : SectionKey → Finset ℕ) (course : Course)
    (b : Build) (blk : Char) (l : List Sess) (b' : Build) :
    (practicum_total_hours course =
      (if course.unitsLab * 3 + course.unitsLecture = 0 then 6
       else course.unitsLab * 3 + course.unitsLecture)) ∧
    (practicum_num_days course = if 18 < practicum_total_hours course then 3 else 2) ∧
    (practicum_slots_per_day course =
      (⌈(practicum_total_hours course / (practicum_num_days course : ℚ)) / (1/2)⌉).toNat) ∧
    (create_practicum_sessions cfg secOcc course b = none ↔
      ∃ bl ∈ blockLetters course.blocks,
        get_valid_domain cfg (practicum_slots_per_day course)
          (secOcc (course.program, course.yearLevel, bl)) false false false true (some 0) = [] ∧
        get_valid_domain cfg (practicum_slots_per_day course)
          (secOcc (course.program, course.yearLevel, bl)) false false false true (some 1) = []) ∧
    (practicum_block cfg secOcc course (practicum_num_days course)
        (practicum_slots_per_day course) blk b = some (l, b') →
      ∃ w : ℕ,
        w = (if (get_valid_domain cfg (practicum_slots_per_day course)
                (secOcc (course.program, course.yearLevel, blk)) false false false true
                (some (if b.early ≤ b.late then 0 else 1))) = []
             then 1 - (if b.early ≤ b.late then 0 else 1)
             else (if b.early ≤ b.late then 0 else 1)) ∧
        l.length = practicum_num_days course ∧
        (∀ s ∈ l, s.domain = get_valid_domain cfg (practicum_slots_per_day course)
            (secOcc (course.program, course.yearLevel, blk)) false false false true (some w) ∧
          s.duration = practicum_slots_per_day course) ∧
        (∀ σ : Asg, (∀ p ∈ b'.chains, (σ p.2).dy = (σ p.1).dy + 1) →
          ∀ i, i + 1 < practicum_num_days course →
            (σ (b.counter + i + 1)).dy = (σ (b.counter + i)).dy + 1)) := by
  refine ⟨?_, ?_, rfl, ?_, ?_⟩
  · unfold practicum_total_hours
    rfl
  · unfold practicum_num_days
    rfl
  · unfold create_practicum_sessions
    exact practicumBlocks_none_iff cfg secOcc course (practicum_num_days course)
      (practicum_slots_per_day course) (blockLetters course.blocks) [] b
  · intro h
    obtain ⟨w, hw, hl, hch, hcnt, _⟩ := practicum_block_some cfg secOcc course
      (practicum_num_days course) (practicum_slots_per_day course) blk b l b' h
    refine ⟨w, hw, ?_, ?_, ?_⟩
    · rw [hl]
      simp
    · intro s hs
      rw [hl] at hs
      obtain ⟨i, hi, rfl⟩ := List.mem_map.mp hs
      exact ⟨rfl, rfl⟩
    · intro σ hσ i hi
      have hmem : (b.counter + i, b.counter + i + 1) ∈ b'.chains := by
        rw [hch]
        refine List.mem_append_right _ (List.mem_map.mpr ⟨i, ?_, rfl⟩)
        rw [List.mem_range]
        omega
      have := hσ _ hmem
      simpa using this

/-- Witness for C5: the practicum course `IT422` (2 lab units) has 6 total
hours hence 2 days of 6 slots; on an empty 6-day grid its single block
schedules, while with no days at all both windows are empty and the
construction fails. -/
theorem claim_C5_witness :
    practicum_total_hours ⟨"IT422", "Practicum", "BSIT", 4, 0, 2, 1⟩ = 6 ∧
    practicum_num_days ⟨"IT422", "Practicum", "BSIT", 4, 0, 2, 1⟩ = 2 ∧
    create_practicum_sessions ⟨7, 21, []⟩ (fun _ => ∅)
      ⟨"IT422", "Practicum", "BSIT", 4, 0, 2, 1⟩ (emptyBuild 1 0 0) = none ∧
    ∃ l b', practicum_block ⟨7, 21, ["M", "T", "W", "R", "F", "S"]⟩ (fun _ => ∅)
        ⟨"IT422", "Practicum", "BSIT", 4, 0, 2, 1⟩ 2 6 'A' (emptyBuild 1 0 0) = some (l, b') ∧
      l.length = 2 := by
  have hth : practicum_total_hours ⟨"IT422", "Practicum", "BSIT", 4, 0, 2, 1⟩ = 6 := by
    rw [(claim_C5 ⟨7, 21, []⟩ (fun _ => ∅) ⟨"IT422", "Practicum", "BSIT", 4, 0, 2, 1⟩
      (emptyBuild 1 0 0) 'A' [] (emptyBuild 1 0 0)).1]
    norm_num
  have hnd : practicum_num_days ⟨"IT422", "Practicum", "BSIT", 4, 0, 2, 1⟩ = 2 := by
    rw [(claim_C5 ⟨7, 21, []⟩ (fun _ => ∅) ⟨"IT422", "Practicum", "BSIT", 4, 0, 2, 1⟩
      (emptyBuild 1 0 0) 'A' [] (emptyBuild 1 0 0)).2.1, hth]
    norm_num
  refine ⟨hth, hnd, ?_, ?_⟩
  · rw [(claim_C5 ⟨7, 21, []⟩ (fun _ => ∅) ⟨"IT422", "Practicum", "BSIT", 4, 0, 2, 1⟩
      (emptyBuild 1 0 0) 'A' [] (emptyBuild 1 0 0)).2.2.2.1]
    refine ⟨'A', by with_unfolding_all decide, ?_, ?_⟩ <;>
    · rw [show get_valid_domain ⟨7, 21, []⟩ = get_valid_domain ⟨7, 21, []⟩ from rfl]
      with_unfolding_all decide
  · rcases hpb : practicum_block ⟨7, 21, ["M", "T", "W", "R", "F", "S"]⟩ (fun _ => ∅)
        ⟨"IT422", "Practicum", "BSIT", 4, 0, 2, 1⟩ 2 6 'A' (emptyBuild 1 0 0) with _ | ⟨l, b'⟩
    · exact absurd hpb (by with_unfolding_all decide)
    · have hpb' : practicum_block ⟨7, 21, ["M", "T", "W", "R", "F", "S"]⟩ (fun _ => ∅)
          ⟨"IT422", "Practicum", "BSIT", 4, 0, 2, 1⟩
          (practicum_num_days ⟨"IT422", "Practicum", "BSIT", 4, 0, 2, 1⟩)
          (practicum_slots_per_day ⟨"IT422", "Practicum", "BSIT", 4, 0, 2, 1⟩)
          'A' (emptyBuild 1 0 0) = some (l, b') := by
        have hsp : practicum_slots_per_day ⟨"IT422", "Practicum", "BSIT", 4, 0, 2, 1⟩ = 6 := by
          with_unfolding_all decide
        rw [hnd, hsp]
        exact hpb
      obtain ⟨w, hw, hlen, _, _⟩ := ((claim_C5 ⟨7, 21, ["M", "T", "W", "R", "F", "S"]⟩
        (fun _ => ∅) ⟨"IT422", "Practicum", "BSIT", 4, 0, 2, 1⟩
        (emptyBuild 1 0 0) 'A' l b').2.2.2.2) hpb'
      exact ⟨l, b', rfl, by rw [hlen, hnd]⟩

/-! ### Characterisations of the session-creation folds -/

/-- Whether the `i`-th session of a creation loop gets a room variable. -/
def hasRoomAt (forceOnline : Bool) (rooms_avail : List String) (i : ℕ) : Bool :=
  (decide (i < PHYSICAL_SESSION_LIMIT) && !forceOnline) && !rooms_avail.isEmpty

/-- The session created by iteration `i` of `create_constrained_session`'s
loop when the counter holds `sid`. -/
def csess (course : Course) (blk : Char) (sessType : String) (dom : List ℕ)
    (dur : ℕ) (hasR : Bool) (nR : ℕ) (sid : ℕ) : Sess :=
  { id := .plain sid, vid := sid, code := course.courseCode, title := course.title,
    prog := course.program, yr := course.yearLevel, blk := blk, stype := sessType,
    domain := dom, duration := dur, hasRoom := hasR, numRooms := nR }

theorem addOneSession_fold (rooms_avail : List String) (course : Course) (blk : Char)
    (sessType : String) (dom : List ℕ) (dur : ℕ) (forceOnline : Bool) (b : Build) (n : ℕ) :
    (List.range n).foldl (addOneSession rooms_avail course blk sessType dom dur forceOnline)
      ([], b) =
      ((List.range n).map (fun i => csess course blk sessType dom dur
          (hasRoomAt forceOnline rooms_avail i) rooms_avail.length (b.counter + i)),
       { b with
         sessions := b.sessions ++ (List.range n).map (fun i => csess course blk sessType dom dur
           (hasRoomAt forceOnline rooms_avail i) rooms_avail.length (b.counter + i)),
         secIvls := b.secIvls ++ (List.range n).map
           (fun i => ((course.program, course.yearLevel, blk), b.counter + i, dur)),
         roomIvls := b.roomIvls ++ (List.range n).flatMap
           (fun i => if hasRoomAt forceOnline rooms_avail i then
               (List.range rooms_avail.length).map
                 (fun rid => ((strLower sessType, rid), RSpan.opt (b.counter + i) dur))
             else []),
         counter := b.counter + n }) := by
  induction n with
  | zero => simp
  | succ n ih =>
    rw [List.range_succ, List.foldl_append, ih]
    simp only [List.foldl_cons, List.foldl_nil, addOneSession]
    simp [csess, hasRoomAt, List.range_succ, List.append_assoc, Prod.mk.injEq,
      Build.mk.injEq, Nat.add_assoc]

/-- The `-A` half created by iteration `i` of `create_shared_session`'s loop. -/
def shsessA (course : Course) (blk1 : Char) (sessType : String) (dom : List ℕ)
    (dur : ℕ) (hasR : Bool) (nR : ℕ) (sid : ℕ) : Sess :=
  { id := .sharedA sid, vid := sid, code := course.courseCode, title := course.title,
    prog := course.program, yr := course.yearLevel, blk := blk1, stype := sessType,
    domain := dom, duration := dur, hasRoom := hasR, numRooms := nR }

/-- The `-B` half created by iteration `i` of `create_shared_session`'s loop. -/
def shsessB (course : Course) (blk2 : Char) (sessType : String) (dom : List ℕ)
    (dur : ℕ) (hasR : Bool) (nR : ℕ) (sid : ℕ) : Sess :=
  { id := .sharedB sid, vid := sid, code := course.courseCode, title := course.title,
    prog := course.program, yr := course.yearLevel, blk := blk2, stype := sessType,
    domain := dom, duration := dur, hasRoom := hasR, numRooms := nR }

theorem addOneShared_fold (rooms_avail : List String) (course : Course) (blk1 blk2 : Char)
    (sessType : String) (dom : List ℕ) (dur : ℕ) (b : Build) (n : ℕ) :
    (List.range n).foldl (addOneShared rooms_avail course blk1 blk2 sessType dom dur)
      ([], [], b) =
      ((List.range n).flatMap (fun i =>
         [shsessA course blk1 sessType dom dur (hasRoomAt false rooms_avail i)
            rooms_avail.length (b.counter + i),
          shsessB course blk2 sessType dom dur (hasRoomAt false rooms_avail i)
            rooms_avail.length (b.counter + i)]),
       (List.range n).map (fun i => b.counter + i),
       { b with
         sessions := b.sessions ++ (List.range n).flatMap (fun i =>
           [shsessA course blk1 sessType dom dur (hasRoomAt false rooms_avail i)
              rooms_avail.length (b.counter + i),
            shsessB course blk2 sessType dom dur (hasRoomAt false rooms_avail i)
              rooms_avail.length (b.counter + i)]),
         secIvls := b.secIvls ++ (List.range n).flatMap
           (fun i => [((course.program, course.yearLevel, blk1), b.counter + i, dur),
                      ((course.program, course.yearLevel, blk2), b.counter + i, dur)]),
         roomIvls := b.roomIvls ++ (List.range n).flatMap
           (fun i => if hasRoomAt false rooms_avail i then
               (List.range rooms_avail.length).map
                 (fun rid => ((strLower sessType, rid), RSpan.opt (b.counter + i) dur))
             else []),
         counter := b.counter + n }) := by
  induction n with
  | zero => simp
  | succ n ih =>
    rw [List.range_succ, List.foldl_append, ih]
    simp only [List.foldl_cons, List.foldl_nil, addOneShared]
    simp [shsessA, shsessB, hasRoomAt, List.range_succ, List.append_assoc, Prod.mk.injEq,
      Build.mk.injEq, Nat.add_assoc]

theorem create_constrained_session_some (cfg : Cfg) (rooms : Rooms)
    (secOcc : SectionKey → Finset ℕ) (course : Course) (blk : Char) (sessType : String)
    (n dur : ℕ) (g ns pe fo : Bool) (b : Build) (cs : List Sess) (b' : Build)
    (h : create_constrained_session cfg rooms secOcc course blk sessType n dur g ns pe fo b =
      some (cs, b')) :
    cs = (List.range n).map (fun i => csess course blk sessType
      (get_valid_domain cfg dur (secOcc (course.program, course.yearLevel, blk)) g ns pe false none)
      dur (hasRoomAt fo (rooms (strLower sessType)) i) (rooms (strLower sessType)).length
      (b.counter + i)) ∧
    b'.sessions = b.sessions ++ cs ∧
    b'.secIvls = b.secIvls ++ (List.range n).map
      (fun i => ((course.program, course.yearLevel, blk), b.counter + i, dur)) ∧
    b'.roomIvls = b.roomIvls ++ (List.range n).flatMap
      (fun i => if hasRoomAt fo (rooms (strLower sessType)) i then
          (List.range (rooms (strLower sessType)).length).map
            (fun rid => ((strLower sessType, rid), RSpan.opt (b.counter + i) dur))
        else []) ∧
    b'.chains = b.chains ∧
    (∃ ad, b'.allDiffs = b.allDiffs ++ ad) ∧
    (∃ gp, b'.gecPairs = b.gecPairs ++ gp) ∧
    b'.dailyLims = b.dailyLims ∧
    b'.roomCons = b.roomCons ∧
    b'.counter = b.counter + n ∧
    b'.early = b.early ∧
    b'.late = b.late := by
  unfold create_constrained_session at h
  dsimp only at h
  by_cases hdom : (get_valid_domain cfg dur (secOcc (course.program, course.yearLevel, blk))
      g ns pe false none).isEmpty
  · rw [if_pos hdom] at h
    exact absurd h (by simp)
  · rw [if_neg hdom, addOneSession_fold] at h
    dsimp only at h
    obtain ⟨rfl, rfl⟩ := Prod.mk.injEq .. ▸ Option.some.injEq .. ▸ h
    refine ⟨rfl, ?_, ?_, ?_, ?_, ?_, ?_, ?_, ?_, ?_, ?_, ?_⟩ <;>
      (repeat' split) <;> simp

theorem create_shared_session_some (cfg : Cfg) (rooms : Rooms)
    (secOcc : SectionKey → Finset ℕ) (course : Course) (blk1 blk2 : Char) (sessType : String)
    (n dur : ℕ) (g ns : Bool) (b : Build) (cs : List Sess) (b' : Build)
    (h : create_shared_session cfg rooms secOcc course blk1 blk2 sessType n dur g ns b =
      some (cs, b')) :
    cs = (List.range n).flatMap (fun i =>
      [shsessA course blk1 sessType
         (get_valid_domain cfg dur (secOcc (course.program, course.yearLevel, blk1) ∪
           secOcc (course.program, course.yearLevel, blk2)) g ns false false none)
         dur (hasRoomAt false (rooms (strLower sessType)) i) (rooms (strLower sessType)).length
         (b.counter + i),
       shsessB course blk2 sessType
         (get_valid_domain cfg dur (secOcc (course.program, course.yearLevel, blk1) ∪
           secOcc (course.program, course.yearLevel, blk2)) g ns false false none)
         dur (hasRoomAt false (rooms (strLower sessType)) i) (rooms (strLower sessType)).length
         (b.counter + i)]) ∧
    b'.sessions = b.sessions ++ cs ∧
    b'.secIvls = b.secIvls ++ (List.range n).flatMap
      (fun i => [((course.program, course.yearLevel, blk1), b.counter + i, dur),
                 ((course.program, course.yearLevel, blk2), b.counter + i, dur)]) ∧
    b'.roomIvls = b.roomIvls ++ (List.range n).flatMap
      (fun i => if hasRoomAt false (rooms (strLower sessType)) i then
          (List.range (rooms (strLower sessType)).length).map
            (fun rid => ((strLower sessType, rid), RSpan.opt (b.counter + i) dur))
        else []) ∧
    b'.chains = b.chains ∧
    (∃ ad, b'.allDiffs = b.allDiffs ++ ad) ∧
    (∃ gp, b'.gecPairs = b.gecPairs ++ gp) ∧
    b'.dailyLims = b.dailyLims ∧
    b'.roomCons = b.roomCons ∧
    b'.counter = b.counter + n ∧
    b'.early = b.early ∧
    b'.late = b.late := by
  unfold create_shared_session at h
  dsimp only at h
  by_cases hdom : (get_valid_domain cfg dur (secOcc (course.program, course.yearLevel, blk1) ∪
      secOcc (course.program, course.yearLevel, blk2)) g ns false false none).isEmpty
  · rw [if_pos hdom] at h
    exact absurd h (by simp)
  · rw [if_neg hdom, addOneShared_fold] at h
    dsimp only at h
    obtain ⟨rfl, rfl⟩ := Prod.mk.injEq .. ▸ Option.some.injEq .. ▸ h
    refine ⟨rfl, ?_, ?_, ?_, ?_, ?_, ?_, ?_, ?_, ?_, ?_, ?_⟩ <;>
      (repeat' split) <;> simp

theorem mem_constrained_plain {cfg : Cfg} {rooms : Rooms} {secOcc : SectionKey → Finset ℕ}
    {course : Course} {blk : Char} {sessType : String} {n dur : ℕ} {g ns pe fo : Bool}
    {b : Build} {cs : List Sess} {b' : Build}
    (h : create_constrained_session cfg rooms secOcc course blk sessType n dur g ns pe fo b =
      some (cs, b')) {s : Sess} (hs : s ∈ cs) :
    (∃ m, s.id = EvId.plain m) ∧ s.stype = sessType := by
  obtain ⟨hcs, _⟩ := create_constrained_session_some cfg rooms secOcc course blk sessType
    n dur g ns pe fo b cs b' h
  rw [hcs] at hs
  obtain ⟨i, _, rfl⟩ := List.mem_map.mp hs
  exact ⟨⟨_, rfl⟩, rfl⟩

theorem mem_shared_shape {cfg : Cfg} {rooms : Rooms} {secOcc : SectionKey → Finset ℕ}
    {course : Course} {blk1 blk2 : Char} {sessType : String} {n dur : ℕ} {g ns : Bool}
    {b : Build} {cs : List Sess} {b' : Build}
    (h : create_shared_session cfg rooms secOcc course blk1 blk2 sessType n dur g ns b =
      some (cs, b')) {s : Sess} (hs : s ∈ cs) :
    (∃ m, s.id = EvId.sharedA m ∨ s.id = EvId.sharedB m) ∧ s.stype = sessType := by
  obtain ⟨hcs, _⟩ := create_shared_session_some cfg rooms secOcc course blk1 blk2 sessType
    n dur g ns b cs b' h
  rw [hcs] at hs
  obtain ⟨i, _, hmem⟩ := List.mem_flatMap.mp hs
  simp only [List.mem_cons, List.mem_singleton] at hmem
  rcases hmem with rfl | rfl | hF
  · exact ⟨⟨_, Or.inl rfl⟩, rfl⟩
  · exact ⟨⟨_, Or.inr rfl⟩, rfl⟩
  · exact absurd hF (List.not_mem_nil _)

theorem practicumBlocks_mem (cfg : Cfg) (secOcc : SectionKey → Finset ℕ) (course : Course)
    (nd sp : ℕ) :
    ∀ (letters : List Char) (acc : List Sess) (b : Build) (l : List Sess) (b' : Build),
      practicumBlocks cfg secOcc course nd sp letters (acc, b) = some (l, b') →
      ∀ s ∈ l, s ∈ acc ∨
        ((∃ m, s.id = EvId.plain m) ∧ s.stype = "practicum" ∧ s.hasRoom = false ∧
          s.numRooms = 0 ∧ s.duration = sp)
  | [], acc, b, l, b', h => by
    rw [practicumBlocks] at h
    obtain ⟨rfl, rfl⟩ := Prod.mk.injEq .. ▸ Option.some.injEq .. ▸ h
    exact fun s hs => Or.inl hs
  | blk :: rest, acc, b, l, b', h => by
    rw [practicumBlocks] at h
    rcases hpb : practicum_block cfg secOcc course nd sp blk b with _ | ⟨lb, b1⟩
    · rw [hpb] at h
      exact absurd h (by simp)
    · rw [hpb] at h
      intro s hs
      rcases practicumBlocks_mem cfg secOcc course nd sp rest (acc ++ lb) b1 l b' h s hs with
        hmem | hplain
      · rcases List.mem_append.mp hmem with hmem | hmem
        · exact Or.inl hmem
        · obtain ⟨w, _, hl, _⟩ := practicum_block_some cfg secOcc course nd sp blk b lb b1 hpb
          rw [hl] at hmem
          obtain ⟨i, _, rfl⟩ := List.mem_map.mp hmem
          exact Or.inr ⟨⟨_, rfl⟩, rfl, rfl, rfl, rfl⟩
      · exact Or.inr hplain

theorem labBlocks_mem (cfg : Cfg) (rooms : Rooms) (secOcc : SectionKey → Finset ℕ)
    (course : Course) (count dur : ℕ) :
    ∀ (letters : List Char) (acc : List Sess) (b : Build) (l : List Sess) (b' : Build),
      labBlocks cfg rooms secOcc course count dur letters (acc, b) = some (l, b') →
      ∀ s ∈ l, s ∈ acc ∨ ((∃ m, s.id = EvId.plain m) ∧ s.stype = "lab")
  | [], acc, b, l, b', h => by
    rw [labBlocks] at h
    obtain ⟨rfl, rfl⟩ := Prod.mk.injEq .. ▸ Option.some.injEq .. ▸ h
    exact fun s hs => Or.inl hs
  | blk :: rest, acc, b, l, b', h => by
    rw [labBlocks] at h
    rcases hcc : create_constrained_session cfg rooms secOcc course blk "lab" count dur
        false false false false b with _ | ⟨cs, b1⟩
    · rw [hcc] at h
      exact absurd h (by simp)
    · rw [hcc] at h
      intro s hs
      rcases labBlocks_mem cfg rooms secOcc course count dur rest (acc ++ cs) b1 l b' h s hs with
        hmem | hplain
      · rcases List.mem_append.mp hmem with hmem | hmem
        · exact Or.inl hmem
        · exact Or.inr (mem_constrained_plain hcc hmem)
      · exact Or.inr hplain

theorem lectureBlocks_mem (cfg : Cfg) (rooms : Rooms) (secOcc : SectionKey → Finset ℕ)
    (course : Course) (sm g ns pe : Bool) (count dur : ℕ) :
    ∀ (k i : ℕ) (acc : List Sess) (b : Build) (l : List Sess) (b' : Build),
      course.blocks - i ≤ k →
      lectureBlocks cfg rooms secOcc course sm g ns pe count dur i acc b = some (l, b') →
      ∀ s ∈ l, s ∈ acc ∨
        ((∃ m, s.id = EvId.plain m) ∧ s.stype = "lecture") ∨
        (sm = true ∧ 2 ≤ course.blocks ∧ s.stype = "lecture" ∧
          (∃ m, s.id = EvId.sharedA m ∨ s.id = EvId.sharedB m)) := by
  intro k
  induction k with
  | zero =>
    intro i acc b l b' hk h
    rw [lectureBlocks, dif_neg (by omega)] at h
    obtain ⟨rfl, rfl⟩ := Prod.mk.injEq .. ▸ Option.some.injEq .. ▸ h
    exact fun s hs => Or.inl hs
  | succ k ih =>
    intro i acc b l b' hk h
    by_cases hi : i < course.blocks
    · rw [lectureBlocks, dif_pos hi] at h
      dsimp only at h
      by_cases hmerge : (sm && decide (i + 1 < course.blocks)) = true
      · rw [if_pos hmerge] at h
        rw [Bool.and_eq_true] at hmerge
        have hsm : sm = true := hmerge.1
        have hi1 : i + 1 < course.blocks := by
          have := hmerge.2
          simpa using this
        rcases hsh : create_shared_session cfg rooms secOcc course (Char.ofNat ('A'.toNat + i))
            (Char.ofNat ('A'.toNat + (i + 1))) "lecture" count dur g ns b with _ | ⟨ms, b1⟩
        · rw [hsh] at h
          rcases hcc : create_constrained_session cfg rooms secOcc course
              (Char.ofNat ('A'.toNat + i)) "lecture" count dur g ns pe false b with _ | ⟨cs, b1⟩
          · rw [hcc] at h
            exact absurd h (by simp)
          · rw [hcc] at h
            intro s hs
            rcases ih (i + 1) (acc ++ cs) b1 l b' (by omega) h s hs with hmem | hrest
            · rcases List.mem_append.mp hmem with hmem | hmem
              · exact Or.inl hmem
              · exact Or.inr (Or.inl (mem_constrained_plain hcc hmem))
            · exact Or.inr hrest
        · rw [hsh] at h
          intro s hs
          rcases ih (i + 2) (acc ++ ms) b1 l b' (by omega) h s hs with hmem | hrest
          · rcases List.mem_append.mp hmem with hmem | hmem
            · exact Or.inl hmem
            · obtain ⟨hid, hty⟩ := mem_shared_shape hsh hmem
              exact Or.inr (Or.inr ⟨hsm, by omega, hty, hid⟩)
          · exact Or.inr hrest
      · rw [if_neg hmerge] at h
        rcases hcc : create_constrained_session cfg rooms secOcc course
            (Char.ofNat ('A'.toNat + i)) "lecture" count dur g ns pe false b with _ | ⟨cs, b1⟩
        · rw [hcc] at h
          exact absurd h (by simp)
        · rw [hcc] at h
          intro s hs
          rcases ih (i + 1) (acc ++ cs) b1 l b' (by omega) h s hs with hmem | hrest
          · rcases List.mem_append.mp hmem with hmem | hmem
            · exact Or.inl hmem
            · exact Or.inr (Or.inl (mem_constrained_plain hcc hmem))
          · exact Or.inr hrest
    · rw [lectureBlocks, dif_neg hi] at h
      obtain ⟨rfl, rfl⟩ := Prod.mk.injEq .. ▸ Option.some.injEq .. ▸ h
      exact fun s hs => Or.inl hs

/-- Claim C6, amended: shared (merged) lecture sessions arise only from
courses of year 1, year 2 or NSTP when two consecutive blocks are available
(`blocks ≥ 2`); PE courses are *not* excluded — a year-1/2 PE course with two
consecutive blocks is merged like any other. -/
theorem claim_C6 (cfg : Cfg) (rooms : Rooms) (secOcc : SectionKey → Finset ℕ)
    (course : Course) (b : Build) (l : List Sess) (b' : Build)
    (h : create_course_sessions cfg rooms secOcc course b = some (l, b'))
    (s : Sess) (hs : s ∈ l) (m : ℕ)
    (hsh : s.id = EvId.sharedA m ∨ s.id = EvId.sharedB m) :
    ((course.yearLevel = 1 ∨ course.yearLevel = 2) ∨ hasSubstr course.courseCode "NSTP" = true) ∧
    2 ≤ course.blocks ∧ s.stype = "lecture" := by
  unfold create_course_sessions at h
  dsimp only at h
  by_cases hpr : (hasSubstr (strUpper course.title) "PRACTICUM" ||
      hasSubstr course.courseCode "422" || hasSubstr course.courseCode "131") = true
  · rw [if_pos hpr] at h
    unfold create_practicum_sessions at h
    have hm := practicumBlocks_mem cfg secOcc course (practicum_num_days course)
      (practicum_slots_per_day course) (blockLetters course.blocks) [] b l b' h s hs
    rcases hm with hmem | ⟨⟨m', hid⟩, _⟩
    · exact absurd hmem (List.not_mem_nil s)
    · rcases hsh with hsh | hsh <;> rw [hsh] at hid <;> exact absurd hid (by simp)
  · rw [if_neg hpr] at h
    split at h
    next heq => exact absurd h (by simp)
    next sessL b1 heq =>
      split at h
      next heq2 => exact absurd h (by simp)
      next allSess b2 heq2 =>
        rw [Option.some.injEq, Prod.mk.injEq] at h
        obtain ⟨rfl, rfl⟩ := h
        have hsl : s ∈ sessL ∨ ((∃ m', s.id = EvId.plain m') ∧ s.stype = "lab") := by
          by_cases hlab : 0 < course.unitsLab
          · rw [if_pos hlab] at heq2
            exact labBlocks_mem cfg rooms secOcc course (labCountDur course.unitsLab).1
              (labCountDur course.unitsLab).2 (blockLetters course.blocks) sessL b1 allSess b2 heq2 s hs
          · rw [if_neg hlab, Option.some.injEq, Prod.mk.injEq] at heq2
            obtain ⟨rfl, rfl⟩ := heq2
            exact Or.inl hs
        rcases hsl with hsl | ⟨⟨m', hid⟩, _⟩
        · by_cases hlec : 0 < course.unitsLecture
          · rw [if_pos hlec] at heq
            have hm := lectureBlocks_mem cfg rooms secOcc course
              ((course.yearLevel == 1 || course.yearLevel == 2) ||
                hasSubstr course.courseCode "NSTP")
              (strStarts course.courseCode "GEC" || strStarts course.courseCode "MAT")
              (hasSubstr course.courseCode "NSTP")
              (hasSubstr course.courseCode "PE" || hasSubstr course.courseCode "PATHFIT")
              (lectureCountDur
                (hasSubstr course.courseCode "PE" || hasSubstr course.courseCode "PATHFIT")
                (hasSubstr course.courseCode "NSTP")
                (pytrunc (course.unitsLecture * 2)).toNat).1
              (lectureCountDur
                (hasSubstr course.courseCode "PE" || hasSubstr course.courseCode "PATHFIT")
                (hasSubstr course.courseCode "NSTP")
                (pytrunc (course.unitsLecture * 2)).toNat).2
              course.blocks 0 [] b sessL b1 (by omega) heq s hsl
            rcases hm with hmem | ⟨⟨m', hid⟩, _⟩ | ⟨hsm, hbl, hty, _⟩
            · exact absurd hmem (List.not_mem_nil s)
            · rcases hsh with hsh | hsh <;> rw [hsh] at hid <;> exact absurd hid (by simp)
            · refine ⟨?_, hbl, hty⟩
              rw [Bool.or_eq_true, Bool.or_eq_true] at hsm
              rcases hsm with (h1 | h2) | h3
              · exact Or.inl (Or.inl (by simpa using h1))
              · exact Or.inl (Or.inr (by simpa using h2))
              · exact Or.inr h3
          · rw [if_neg hlec, Option.some.injEq, Prod.mk.injEq] at heq
            obtain ⟨rfl, rfl⟩ := heq
            exact absurd hsl (List.not_mem_nil s)
        · rcases hsh with hsh | hsh <;> rw [hsh] at hid <;> exact absurd hid (by simp)

/-- Claim C6, counterexample: the year-1 PE course `PATHFIT1` (2 lecture
units, 2 blocks) is block-merged into a single shared session emitted with
ids `1-A` and `1-B`, although the claim says PE courses never merge. -/
theorem claim_C6_counterexample :
    hasSubstr "PATHFIT1" "PATHFIT" = true ∧
    (create_course_sessions ⟨7, 21, ["M", "T", "W", "R", "F", "S"]⟩
      (fun k => if k = "lecture" then ["L1"] else [])
      (fun _ => ∅) ⟨"PATHFIT1", "PE 1", "BSCS", 1, 2, 0, 2⟩ (emptyBuild 1 0 0)).map
      (fun r => r.1.map (fun s => s.id)) = some [EvId.sharedA 1, EvId.sharedB 1] := by
  constructor
  · with_unfolding_all decide
  · with_unfolding_all decide

/-- Witness for C6 on the year-1 course NSTP11 with two blocks: its merged
session satisfies the amended characterisation. -/
theorem claim_C6_witness :
    ∃ l b' s, create_course_sessions ⟨7, 21, ["M", "T", "W", "R", "F", "S"]⟩
        (fun k => if k = "lecture" then ["L1"] else [])
        (fun _ => ∅) ⟨"NSTP11", "NSTP", "BSCS", 1, 3, 0, 2⟩ (emptyBuild 1 0 0) = some (l, b') ∧
      s ∈ l ∧ s.id = EvId.sharedA 1 ∧ s.stype = "lecture" ∧
      2 ≤ (⟨"NSTP11", "NSTP", "BSCS", 1, 3, 0, 2⟩ : Course).blocks := by
  rcases hc : create_course_sessions ⟨7, 21, ["M", "T", "W", "R", "F", "S"]⟩
      (fun k => if k = "lecture" then ["L1"] else [])
      (fun _ => ∅) ⟨"NSTP11", "NSTP", "BSCS", 1, 3, 0, 2⟩ (emptyBuild 1 0 0) with _ | ⟨l, b'⟩
  · exact absurd hc (by with_unfolding_all decide)
  · have h2 : (create_course_sessions ⟨7, 21, ["M", "T", "W", "R", "F", "S"]⟩
        (fun k => if k = "lecture" then ["L1"] else [])
        (fun _ => ∅) ⟨"NSTP11", "NSTP", "BSCS", 1, 3, 0, 2⟩ (emptyBuild 1 0 0)).map
        (fun r => r.1.map (fun s => s.id)) = some [EvId.sharedA 1, EvId.sharedB 1] := by
      with_unfolding_all decide
    rw [hc] at h2
    simp at h2
    rcases l with _ | ⟨s0, rest⟩
    · simp at h2
    · have hid : s0.id = EvId.sharedA 1 := by
        have := congrArg (fun x => x.headD (EvId.plain 0)) h2
        simpa using this
      have hmem : s0 ∈ s0 :: rest := List.mem_cons_self s0 rest
      have hcl := claim_C6 ⟨7, 21, ["M", "T", "W", "R", "F", "S"]⟩
        (fun k => if k = "lecture" then ["L1"] else [])
        (fun _ => ∅) ⟨"NSTP11", "NSTP", "BSCS", 1, 3, 0, 2⟩ (emptyBuild 1 0 0)
        (s0 :: rest) b' hc s0 hmem 1 (Or.inl hid)
      exact ⟨s0 :: rest, b', s0, rfl, hmem, hid, hcl.2.2, hcl.2.1⟩

/-! ### Build-extension invariants used by the run-level claims -/

/-- The section interval recorded for one session record. -/
def sessIvl (s : Sess) : SectionKey × ℕ × ℕ := (s.key, s.vid, s.duration)

/-- Facts true of every session at creation time: its whole domain avoids the
section's ledgered slots; practicum sessions never get a room variable; and
lecture sessions of NSTP (resp. GEC/MAT) courses only have starts whose day
index is 4 or 5 (resp. at most 3). -/
def SessWF (cfg : Cfg) (secOcc : SectionKey → Finset ℕ) (s : Sess) : Prop :=
  (∀ g ∈ s.domain, ∀ k, k < s.duration → g + k ∉ secOcc s.key) ∧
  (s.stype = "practicum" → s.hasRoom = false) ∧
  (s.stype = "lecture" → hasSubstr s.code "NSTP" = true →
    ∀ g ∈ s.domain, 1 ≤ s.duration →
      g / cfg.slots_per_day = 4 ∨ g / cfg.slots_per_day = 5) ∧
  (s.stype = "lecture" → (strStarts s.code "GEC" || strStarts s.code "MAT") = true →
    ∀ g ∈ s.domain, 1 ≤ s.duration → g / cfg.slots_per_day ≤ 3)

/-- A creation step extends the build by well-formed sessions with aligned
section intervals. -/
def GoodDelta (cfg : Cfg) (secOcc : SectionKey → Finset ℕ) (b b' : Build)
    (Δ : List Sess) : Prop :=
  b'.sessions = b.sessions ++ Δ ∧
  b'.secIvls = b.secIvls ++ Δ.map sessIvl ∧
  (∀ s ∈ Δ, SessWF cfg secOcc s)

theorem GoodDelta.trans {cfg : Cfg} {secOcc : SectionKey → Finset ℕ} {b b' b'' : Build}
    {Δ1 Δ2 : List Sess} (h1 : GoodDelta cfg secOcc b b' Δ1)
    (h2 : GoodDelta cfg secOcc b' b'' Δ2) :
    GoodDelta cfg secOcc b b'' (Δ1 ++ Δ2) := by
  obtain ⟨hs1, hi1, hw1⟩ := h1
  obtain ⟨hs2, hi2, hw2⟩ := h2
  refine ⟨by rw [hs2, hs1, List.append_assoc], by rw [hi2, hi1, List.map_append, List.append_assoc], ?_⟩
  intro s hs
  rcases List.mem_append.mp hs with hs | hs
  · exact hw1 s hs
  · exact hw2 s hs

theorem GoodDelta.nil (cfg : Cfg) (secOcc : SectionKey → Finset ℕ) (b : Build) :
    GoodDelta cfg secOcc b b [] := ⟨by simp, by simp, by simp⟩

/-- Domain facts for a session whose domain came from `get_valid_domain` with
flags derived from its own course code. -/
theorem sessWF_of_domain (cfg : Cfg) (secOcc : SectionKey → Finset ℕ) (s : Sess)
    (occ : Finset ℕ) (hocc : secOcc s.key ⊆ occ)
    (g ns pe pr : Bool) (pw : Option ℕ)
    (hdom : s.domain = get_valid_domain cfg s.duration occ g ns pe pr pw)
    (hroom : s.stype = "practicum" → s.hasRoom = false)
    (hns : s.stype = "lecture" → ns = hasSubstr s.code "NSTP")
    (hg : s.stype = "lecture" → g = (strStarts s.code "GEC" || strStarts s.code "MAT")) :
    SessWF cfg secOcc s := by
  refine ⟨?_, hroom, ?_, ?_⟩
  · intro x hx k hk hmem
    rw [hdom] at hx
    exact get_valid_domain_no_collision hx hk (hocc hmem)
  · intro hty hcode x hx hdur
    rw [hdom] at hx
    have hd := (get_valid_domain_day hx hdur).1
    rw [← hns hty] at hcode
    rw [hcode] at hd
    exact dayAllowed_nstp hd
  · intro hty hcode x hx hdur
    rw [hdom] at hx
    have hd := (get_valid_domain_day hx hdur).1
    rw [← hg hty] at hcode
    rw [hcode] at hd
    exact dayAllowed_gec hd

theorem constrained_goodDelta {cfg : Cfg} {rooms : Rooms} {secOcc : SectionKey → Finset ℕ}
    {course : Course} {blk : Char} {sessType : String} {n dur : ℕ} {g ns pe fo : Bool}
    {b : Build} {cs : List Sess} {b' : Build}
    (h : create_constrained_session cfg rooms secOcc course blk sessType n dur g ns pe fo b =
      some (cs, b'))
    (hty : sessType = "lecture" ∨ sessType = "lab")
    (hns : sessType = "lecture" → ns = hasSubstr course.courseCode "NSTP")
    (hg : sessType = "lecture" → g = (strStarts course.courseCode "GEC" ||
      strStarts course.courseCode "MAT")) :
    GoodDelta cfg secOcc b b' cs := by
  obtain ⟨hcs, hsess, hivl, _⟩ := create_constrained_session_some cfg rooms secOcc course blk
    sessType n dur g ns pe fo b cs b' h
  refine ⟨hsess, ?_, ?_⟩
  · rw [hivl, hcs, List.map_map]
    rfl
  · intro s hs
    rw [hcs] at hs
    obtain ⟨i, _, rfl⟩ := List.mem_map.mp hs
    refine sessWF_of_domain cfg secOcc _ (secOcc (course.program, course.yearLevel, blk))
      (by exact subset_rfl) g ns pe false none rfl ?_
      (fun h1 => hns (by simpa [csess] using h1)) (fun h1 => hg (by simpa [csess] using h1))
    intro h1
    rcases hty with hty | hty <;> simp [csess, hty] at h1 ⊢

theorem shared_goodDelta {cfg : Cfg} {rooms : Rooms} {secOcc : SectionKey → Finset ℕ}
    {course : Course} {blk1 blk2 : Char} {sessType : String} {n dur : ℕ} {g ns : Bool}
    {b : Build} {cs : List Sess} {b' : Build}
    (h : create_shared_session cfg rooms secOcc course blk1 blk2 sessType n dur g ns b =
      some (cs, b'))
    (hty : sessType = "lecture" ∨ sessType = "lab")
    (hns : sessType = "lecture" → ns = hasSubstr course.courseCode "NSTP")
    (hg : sessType = "lecture" → g = (strStarts course.courseCode "GEC" ||
      strStarts course.courseCode "MAT")) :
    GoodDelta cfg secOcc b b' cs := by
  obtain ⟨hcs, hsess, hivl, _⟩ := create_shared_session_some cfg rooms secOcc course blk1 blk2
    sessType n dur g ns b cs b' h
  refine ⟨hsess, ?_, ?_⟩
  · rw [hivl, hcs, List.map_flatMap]
    rfl
  · intro s hs
    rw [hcs] at hs
    obtain ⟨i, _, hmem⟩ := List.mem_flatMap.mp hs
    simp only [List.mem_cons, List.mem_singleton] at hmem
    have hocc1 : secOcc (course.program, course.yearLevel, blk1) ⊆
        secOcc (course.program, course.yearLevel, blk1) ∪
        secOcc (course.program, course.yearLevel, blk2) := Finset.subset_union_left
    have hocc2 : secOcc (course.program, course.yearLevel, blk2) ⊆
        secOcc (course.program, course.yearLevel, blk1) ∪
        secOcc (course.program, course.yearLevel, blk2) := Finset.subset_union_right
    rcases hmem with rfl | rfl | hF
    · refine sessWF_of_domain cfg secOcc _ _ hocc1 g ns false false none rfl ?_
        (fun h1 => hns (by simpa [shsessA] using h1))
        (fun h1 => hg (by simpa [shsessA] using h1))
      intro h1
      rcases hty with hty | hty <;> simp [shsessA, hty] at h1 ⊢
    · refine sessWF_of_domain cfg secOcc _ _ hocc2 g ns false false none rfl ?_
        (fun h1 => hns (by simpa [shsessB] using h1))
        (fun h1 => hg (by simpa [shsessB] using h1))
      intro h1
      rcases hty with hty | hty <;> simp [shsessB, hty] at h1 ⊢
    · exact absurd hF (List.not_mem_nil _)

/-- Session fields inherited from the course being processed. -/
def FromCourse (course : Course) (s : Sess) : Prop :=
  s.code = course.courseCode ∧ s.prog = course.program ∧ s.yr = course.yearLevel ∧
  s.blk ∈ blockLetters course.blocks

theorem practicum_block_goodDelta {cfg : Cfg} {secOcc : SectionKey → Finset ℕ}
    {course : Course} {nd sp : ℕ} {blk : Char} {b : Build} {l : List Sess} {b' : Build}
    (h : practicum_block cfg secOcc course nd sp blk b = some (l, b'))
    (hblk : blk ∈ blockLetters course.blocks) :
    GoodDelta cfg secOcc b b' l ∧ b'.roomIvls = b.roomIvls ∧ b'.dailyLims = b.dailyLims ∧
    (∀ s ∈ l, FromCourse course s ∧ s.stype = "practicum" ∧ s.hasRoom = false) := by
  obtain ⟨w, hw, hl, hch, hcnt, hsess, hivl, hriv, had, hgp, hdl, hrc⟩ :=
    practicum_block_some cfg secOcc course nd sp blk b l b' h
  refine ⟨⟨hsess, ?_, ?_⟩, hriv, hdl, ?_⟩
  · rw [hivl, hl, List.map_map]
    rfl
  · intro s hs
    rw [hl] at hs
    obtain ⟨i, _, rfl⟩ := List.mem_map.mp hs
    refine sessWF_of_domain cfg secOcc _ (secOcc (course.program, course.yearLevel, blk))
      (by exact subset_rfl) false false false true (some w) rfl (fun _ => rfl)
      (fun h1 => by simp [psess] at h1) (fun h1 => by simp [psess] at h1)
  · intro s hs
    rw [hl] at hs
    obtain ⟨i, _, rfl⟩ := List.mem_map.mp hs
    exact ⟨⟨rfl, rfl, rfl, hblk⟩, rfl, rfl⟩

theorem practicumBlocks_goodDelta (cfg : Cfg) (secOcc : SectionKey → Finset ℕ)
    (course : Course) (nd sp : ℕ) :
    ∀ (letters : List Char) (acc : List Sess) (b : Build) (l : List Sess) (b' : Build),
      (∀ c ∈ letters, c ∈ blockLetters course.blocks) →
      practicumBlocks cfg secOcc course nd sp letters (acc, b) = some (l, b') →
      ∃ Δ, l = acc ++ Δ ∧ GoodDelta cfg secOcc b b' Δ ∧
        b'.roomIvls = b.roomIvls ∧ b'.dailyLims = b.dailyLims ∧
        (∀ s ∈ Δ, FromCourse course s ∧ s.stype = "practicum" ∧ s.hasRoom = false)
  | [], acc, b, l, b', _, h => by
    rw [practicumBlocks] at h
    obtain ⟨rfl, rfl⟩ := Prod.mk.injEq .. ▸ Option.some.injEq .. ▸ h
    exact ⟨[], by simp, GoodDelta.nil cfg secOcc b, rfl, rfl, by simp⟩
  | blk :: rest, acc, b, l, b', hlet, h => by
    rw [practicumBlocks] at h
    rcases hpb : practicum_block cfg secOcc course nd sp blk b with _ | ⟨lb, b1⟩
    · rw [hpb] at h
      exact absurd h (by simp)
    · rw [hpb] at h
      obtain ⟨hg1, hr1, hd1, hf1⟩ := practicum_block_goodDelta hpb
        (hlet blk (List.mem_cons_self blk rest))
      obtain ⟨Δ2, hl2, hg2, hr2, hd2, hf2⟩ := practicumBlocks_goodDelta cfg secOcc course nd sp
        rest (acc ++ lb) b1 l b' (fun c hc => hlet c (List.mem_cons_of_mem blk hc)) h
      refine ⟨lb ++ Δ2, by rw [hl2, List.append_assoc], GoodDelta.trans hg1 hg2,
        by rw [hr2, hr1], by rw [hd2, hd1], ?_⟩
      intro s hs
      rcases List.mem_append.mp hs with hs | hs
      · exact hf1 s hs
      · exact hf2 s hs

theorem labBlocks_goodDelta (cfg : Cfg) (rooms : Rooms) (secOcc : SectionKey → Finset ℕ)
    (course : Course) (count dur : ℕ) :
    ∀ (letters : List Char) (acc : List Sess) (b : Build) (l : List Sess) (b' : Build),
      (∀ c ∈ letters, c ∈ blockLetters course.blocks) →
      labBlocks cfg rooms secOcc course count dur letters (acc, b) = some (l, b') →
      ∃ Δ, l = acc ++ Δ ∧ GoodDelta cfg secOcc b b' Δ ∧ b'.dailyLims = b.dailyLims ∧
        (∀ s ∈ Δ, FromCourse course s ∧ s.stype = "lab")
  | [], acc, b, l, b', _, h => by
    rw [labBlocks] at h
    obtain ⟨rfl, rfl⟩ := Prod.mk.injEq .. ▸ Option.some.injEq .. ▸ h
    exact ⟨[], by simp, GoodDelta.nil cfg secOcc b, rfl, by simp⟩
  | blk :: rest, acc, b, l, b', hlet, h => by
    rw [labBlocks] at h
    rcases hcc : create_constrained_session cfg rooms secOcc course blk "lab" count dur
        false false false false b with _ | ⟨cs, b1⟩
    · rw [hcc] at h
      exact absurd h (by simp)
    · rw [hcc] at h
      have hg1 : GoodDelta cfg secOcc b b1 cs :=
        constrained_goodDelta hcc (Or.inr rfl) (fun hF => by simp at hF) (fun hF => by simp at hF)
      have hd1 : b1.dailyLims = b.dailyLims :=
        (create_constrained_session_some cfg rooms secOcc course blk "lab" count dur
          false false false false b cs b1 hcc).2.2.2.2.2.2.2.1
      have hfc1 : ∀ s ∈ cs, FromCourse course s ∧ s.stype = "lab" := by
        intro s hs
        obtain ⟨hcs, _⟩ := create_constrained_session_some cfg rooms secOcc course blk "lab"
          count dur false false false false b cs b1 hcc
        rw [hcs] at hs
        obtain ⟨i, _, rfl⟩ := List.mem_map.mp hs
        exact ⟨⟨rfl, rfl, rfl, hlet blk (List.mem_cons_self blk rest)⟩, rfl⟩
      obtain ⟨Δ2, hl2, hg2, hd2, hf2⟩ := labBlocks_goodDelta cfg rooms secOcc course count dur
        rest (acc ++ cs) b1 l b' (fun c hc => hlet c (List.mem_cons_of_mem blk hc)) h
      refine ⟨cs ++ Δ2, by rw [hl2, List.append_assoc], GoodDelta.trans hg1 hg2,
        by rw [hd2, hd1], ?_⟩
      intro s hs
      rcases List.mem_append.mp hs with hs | hs
      · exact hfc1 s hs
      · exact hf2 s hs

theorem blockChar_mem {course : Course} {i : ℕ} (hi : i < course.blocks) :
    Char.ofNat ('A'.toNat + i) ∈ blockLetters course.blocks :=
  List.mem_map.mpr ⟨i, List.mem_range.mpr hi, rfl⟩

theorem shared_fromCourse {cfg : Cfg} {rooms : Rooms} {secOcc : SectionKey → Finset ℕ}
    {course : Course} {blk1 blk2 : Char} {sessType : String} {n dur : ℕ} {g ns : Bool}
    {b : Build} {cs : List Sess} {b' : Build}
    (h : create_shared_session cfg rooms secOcc course blk1 blk2 sessType n dur g ns b =
      some (cs, b'))
    (h1 : blk1 ∈ blockLetters course.blocks) (h2 : blk2 ∈ blockLetters course.blocks) :
    ∀ s ∈ cs, FromCourse course s ∧ s.stype = sessType := by
  intro s hs
  obtain ⟨hcs, _⟩ := create_shared_session_some cfg rooms secOcc course blk1 blk2 sessType
    n dur g ns b cs b' h
  rw [hcs] at hs
  obtain ⟨i, _, hmem⟩ := List.mem_flatMap.mp hs
  simp only [List.mem_cons, List.mem_singleton] at hmem
  rcases hmem with rfl | rfl | hF
  · exact ⟨⟨rfl, rfl, rfl, h1⟩, rfl⟩
  · exact ⟨⟨rfl, rfl, rfl, h2⟩, rfl⟩
  · exact absurd hF (List.not_mem_nil _)

theorem constrained_fromCourse {cfg : Cfg} {rooms : Rooms} {secOcc : SectionKey → Finset ℕ}
    {course : Course} {blk : Char} {sessType : String} {n dur : ℕ} {g ns pe fo : Bool}
    {b : Build} {cs : List Sess} {b' : Build}
    (h : create_constrained_session cfg rooms secOcc course blk sessType n dur g ns pe fo b =
      some (cs, b'))
    (h1 : blk ∈ blockLetters course.blocks) :
    ∀ s ∈ cs, FromCourse course s ∧ s.stype = sessType := by
  intro s hs
  obtain ⟨hcs, _⟩ := create_constrained_session_some cfg rooms secOcc course blk sessType
    n dur g ns pe fo b cs b' h
  rw [hcs] at hs
  obtain ⟨i, _, rfl⟩ := List.mem_map.mp hs
  exact ⟨⟨rfl, rfl, rfl, h1⟩, rfl⟩

theorem lectureBlocks_goodDelta (cfg : Cfg) (rooms : Rooms) (secOcc : SectionKey → Finset ℕ)
    (course : Course) (sm : Bool) (count dur : ℕ) :
    ∀ (k i : ℕ) (acc : List Sess) (b : Build) (l : List Sess) (b' : Build),
      course.blocks - i ≤ k →
      lectureBlocks cfg rooms secOcc course sm
        (strStarts course.courseCode "GEC" || strStarts course.courseCode "MAT")
        (hasSubstr course.courseCode "NSTP")
        (hasSubstr course.courseCode "PE" || hasSubstr course.courseCode "PATHFIT")
        count dur i acc b = some (l, b') →
      ∃ Δ, l = acc ++ Δ ∧ GoodDelta cfg secOcc b b' Δ ∧ b'.dailyLims = b.dailyLims ∧
        (∀ s ∈ Δ, FromCourse course s ∧ s.stype = "lecture") := by
  intro k
  induction k with
  | zero =>
    intro i acc b l b' hk h
    rw [lectureBlocks, dif_neg (by omega)] at h
    obtain ⟨rfl, rfl⟩ := Prod.mk.injEq .. ▸ Option.some.injEq .. ▸ h
    exact ⟨[], by simp, GoodDelta.nil cfg secOcc b, rfl, by simp⟩
  | succ k ih =>
    intro i acc b l b' hk h
    by_cases hi : i < course.blocks
    · rw [lectureBlocks, dif_pos hi] at h
      dsimp only at h
      have hcase : ∀ (cs : List Sess) (b1 : Build),
          create_constrained_session cfg rooms secOcc course (Char.ofNat ('A'.toNat + i))
            "lecture" count dur
            (strStarts course.courseCode "GEC" || strStarts course.courseCode "MAT")
            (hasSubstr course.courseCode "NSTP")
            (hasSubstr course.courseCode "PE" || hasSubstr course.courseCode "PATHFIT")
            false b = some (cs, b1) →
          lectureBlocks cfg rooms secOcc course sm
            (strStarts course.courseCode "GEC" || strStarts course.courseCode "MAT")
            (hasSubstr course.courseCode "NSTP")
            (hasSubstr course.courseCode "PE" || hasSubstr course.courseCode "PATHFIT")
            count dur (i + 1) (acc ++ cs) b1 = some (l, b') →
          ∃ Δ, l = acc ++ Δ ∧ GoodDelta cfg secOcc b b' Δ ∧ b'.dailyLims = b.dailyLims ∧
            (∀ s ∈ Δ, FromCourse course s ∧ s.stype = "lecture") := by
        intro cs b1 hcc hrec
        have hg1 : GoodDelta cfg secOcc b b1 cs :=
          constrained_goodDelta hcc (Or.inl rfl) (fun _ => rfl) (fun _ => rfl)
        have hd1 : b1.dailyLims = b.dailyLims :=
          (create_constrained_session_some cfg rooms secOcc course _ "lecture" count dur
            _ _ _ false b cs b1 hcc).2.2.2.2.2.2.2.1
        have hfc1 := constrained_fromCourse hcc (blockChar_mem hi)
        obtain ⟨Δ2, hl2, hg2, hd2, hf2⟩ := ih (i + 1) (acc ++ cs) b1 l b' (by omega) hrec
        refine ⟨cs ++ Δ2, by rw [hl2, List.append_assoc], GoodDelta.trans hg1 hg2,
          by rw [hd2, hd1], ?_⟩
        intro s hs
        rcases List.mem_append.mp hs with hs | hs
        · exact hfc1 s hs
        · exact hf2 s hs
      by_cases hmerge : (sm && decide (i + 1 < course.blocks)) = true
      · rw [if_pos hmerge] at h
        rw [Bool.and_eq_true] at hmerge
        have hi1 : i + 1 < course.blocks := by
          have := hmerge.2
          simpa using this
        rcases hsh : create_shared_session cfg rooms secOcc course (Char.ofNat ('A'.toNat + i))
            (Char.ofNat ('A'.toNat + (i + 1))) "lecture" count dur
            (strStarts course.courseCode "GEC" || strStarts course.courseCode "MAT")
            (hasSubstr course.courseCode "NSTP") b with _ | ⟨ms, b1⟩
        · rw [hsh] at h
          rcases hcc : create_constrained_session cfg rooms secOcc course
              (Char.ofNat ('A'.toNat + i)) "lecture" count dur
              (strStarts course.courseCode "GEC" || strStarts course.courseCode "MAT")
              (hasSubstr course.courseCode "NSTP")
              (hasSubstr course.courseCode "PE" || hasSubstr course.courseCode "PATHFIT")
              false b with _ | ⟨cs, b1⟩
          · rw [hcc] at h
            exact absurd h (by simp)
          · rw [hcc] at h
            exact hcase cs b1 hcc h
        · rw [hsh] at h
          have hg1 : GoodDelta cfg secOcc b b1 ms :=
            shared_goodDelta hsh (Or.inl rfl) (fun _ => rfl) (fun _ => rfl)
          have hd1 : b1.dailyLims = b.dailyLims :=
            (create_shared_session_some cfg rooms secOcc course _ _ "lecture" count dur
              _ _ b ms b1 hsh).2.2.2.2.2.2.2.1
          have hfc1 := shared_fromCourse hsh (blockChar_mem hi) (blockChar_mem hi1)
          obtain ⟨Δ2, hl2, hg2, hd2, hf2⟩ := ih (i + 2) (acc ++ ms) b1 l b' (by omega) h
          refine ⟨ms ++ Δ2, by rw [hl2, List.append_assoc], GoodDelta.trans hg1 hg2,
            by rw [hd2, hd1], ?_⟩
          intro s hs
          rcases List.mem_append.mp hs with hs | hs
          · exact hfc1 s hs
          · exact hf2 s hs
      · rw [if_neg hmerge] at h
        rcases hcc : create_constrained_session cfg rooms secOcc course
            (Char.ofNat ('A'.toNat + i)) "lecture" count dur
            (strStarts course.courseCode "GEC" || strStarts course.courseCode "MAT")
            (hasSubstr course.courseCode "NSTP")
            (hasSubstr course.courseCode "PE" || hasSubstr course.courseCode "PATHFIT")
            false b with _ | ⟨cs, b1⟩
        · rw [hcc] at h
          exact absurd h (by simp)
        · rw [hcc] at h
          exact hcase cs b1 hcc h
    · rw [lectureBlocks, dif_neg hi] at h
      obtain ⟨rfl, rfl⟩ := Prod.mk.injEq .. ▸ Option.some.injEq .. ▸ h
      exact ⟨[], by simp, GoodDelta.nil cfg secOcc b, rfl, by simp⟩

theorem addDailyLimits_fields (allSess : List Sess) :
    ∀ (letters : List Char) (b : Build),
      (addDailyLimits letters allSess b).sessions = b.sessions ∧
      (addDailyLimits letters allSess b).secIvls = b.secIvls ∧
      (addDailyLimits letters allSess b).roomIvls = b.roomIvls ∧
      (addDailyLimits letters allSess b).chains = b.chains ∧
      ∃ Ls, (addDailyLimits letters allSess b).dailyLims = b.dailyLims ++ Ls
  | [], b => by
    refine ⟨rfl, rfl, rfl, rfl, [], ?_⟩
    simp [addDailyLimits]
  | c :: cs, b => by
    have hstep : addDailyLimits (c :: cs) allSess b = addDailyLimits cs allSess
        (if (allSess.filter (fun s => s.blk == c)).isEmpty then b
         else { b with dailyLims := b.dailyLims ++
           [(allSess.filter (fun s => s.blk == c)).map (fun s => (s.vid, s.hasRoom))] }) := rfl
    rw [hstep]
    by_cases he : (allSess.filter (fun s => s.blk == c)).isEmpty
    · rw [if_pos he]
      exact addDailyLimits_fields allSess cs b
    · rw [if_neg he]
      obtain ⟨h1, h2, h3, h4, Ls, h5⟩ := addDailyLimits_fields allSess cs
        { b with dailyLims := b.dailyLims ++
          [(allSess.filter (fun s => s.blk == c)).map (fun s => (s.vid, s.hasRoom))] }
      exact ⟨h1, h2, h3, h4,
        [(allSess.filter (fun s => s.blk == c)).map (fun s => (s.vid, s.hasRoom))] ++ Ls,
        by rw [h5]; simp⟩

theorem addDailyLimits_mem (allSess : List Sess) :
    ∀ (letters : List Char) (b : Build) (blk : Char), blk ∈ letters →
      (allSess.filter (fun s => s.blk == blk)).isEmpty = true ∨
      ((allSess.filter (fun s => s.blk == blk)).map (fun s => (s.vid, s.hasRoom))) ∈
        (addDailyLimits letters allSess b).dailyLims
  | [], b, blk, hmem => absurd hmem (List.not_mem_nil blk)
  | c :: cs, b, blk, hmem => by
    have hstep : addDailyLimits (c :: cs) allSess b = addDailyLimits cs allSess
        (if (allSess.filter (fun s => s.blk == c)).isEmpty then b
         else { b with dailyLims := b.dailyLims ++
           [(allSess.filter (fun s => s.blk == c)).map (fun s => (s.vid, s.hasRoom))] }) := rfl
    rw [hstep]
    rcases List.mem_cons.mp hmem with rfl | hmem
    · by_cases he : (allSess.filter (fun s => s.blk == blk)).isEmpty
      · exact Or.inl he
      · rw [if_neg he]
        right
        obtain ⟨_, _, _, _, Ls, h5⟩ := addDailyLimits_fields allSess cs
          { b with dailyLims := b.dailyLims ++
            [(allSess.filter (fun s => s.blk == blk)).map (fun s => (s.vid, s.hasRoom))] }
        rw [h5]
        simp
    · exact addDailyLimits_mem allSess cs _ blk hmem

theorem create_course_sessions_facts {cfg : Cfg} {rooms : Rooms}
    {secOcc : SectionKey → Finset ℕ} {course : Course} {b : Build} {l : List Sess} {b' : Build}
    (h : create_course_sessions cfg rooms secOcc course b = some (l, b')) :
    GoodDelta cfg secOcc b b' l ∧
    (∀ s ∈ l, FromCourse course s) ∧
    (∃ Ls, b'.dailyLims = b.dailyLims ++ Ls) ∧
    (∀ blk : Char,
      (∀ s ∈ l, s.blk = blk → s.hasRoom = false) ∨
      ((l.filter (fun s => s.blk == blk)).map (fun s => (s.vid, s.hasRoom))) ∈ b'.dailyLims) := by
  unfold create_course_sessions at h
  dsimp only at h
  by_cases hpr : (hasSubstr (strUpper course.title) "PRACTICUM" ||
      hasSubstr course.courseCode "422" || hasSubstr course.courseCode "131") = true
  · rw [if_pos hpr] at h
    unfold create_practicum_sessions at h
    obtain ⟨Δ, hlΔ, hgood, _, hdl, hfacts⟩ := practicumBlocks_goodDelta cfg secOcc course
      (practicum_num_days course) (practicum_slots_per_day course)
      (blockLetters course.blocks) [] b l b' (fun c hc => hc) h
    rw [List.nil_append] at hlΔ
    subst hlΔ
    refine ⟨hgood, fun s hs => (hfacts s hs).1, ⟨[], by rw [hdl]; simp⟩, ?_⟩
    intro blk
    exact Or.inl (fun s hs _ => (hfacts s hs).2.2)
  · rw [if_neg hpr] at h
    split at h
    next heq => exact absurd h (by simp)
    next sessL b1 heq =>
      split at h
      next heq2 => exact absurd h (by simp)
      next allSess b2 heq2 =>
        rw [Option.some.injEq, Prod.mk.injEq] at h
        obtain ⟨rfl, rfl⟩ := h
        have hlec : GoodDelta cfg secOcc b b1 sessL ∧ b1.dailyLims = b.dailyLims ∧
            (∀ s ∈ sessL, FromCourse course s) := by
          by_cases hl0 : 0 < course.unitsLecture
          · rw [if_pos hl0] at heq
            obtain ⟨Δ, hlΔ, hgood, hdl, hfacts⟩ := lectureBlocks_goodDelta cfg rooms secOcc
              course _ _ _ course.blocks 0 [] b sessL b1 (by omega) heq
            rw [List.nil_append] at hlΔ
            subst hlΔ
            exact ⟨hgood, hdl, fun s hs => (hfacts s hs).1⟩
          · rw [if_neg hl0, Option.some.injEq, Prod.mk.injEq] at heq
            obtain ⟨rfl, rfl⟩ := heq
            exact ⟨GoodDelta.nil cfg secOcc b, rfl, by simp⟩
        have hlab : GoodDelta cfg secOcc b1 b2 (allSess.drop sessL.length) ∧
            b2.dailyLims = b1.dailyLims ∧ allSess = sessL ++ allSess.drop sessL.length ∧
            (∀ s ∈ allSess.drop sessL.length, FromCourse course s) := by
          by_cases hb0 : 0 < course.unitsLab
          · rw [if_pos hb0] at heq2
            obtain ⟨Δ, hlΔ, hgood, hdl, hfacts⟩ := labBlocks_goodDelta cfg rooms secOcc course
              (labCountDur course.unitsLab).1 (labCountDur course.unitsLab).2
              (blockLetters course.blocks) sessL b1 allSess b2 (fun c hc => hc) heq2
            have hdrop : allSess.drop sessL.length = Δ := by
              rw [hlΔ, List.drop_left]
            rw [hdrop]
            exact ⟨hgood, hdl, hlΔ, fun s hs => (hfacts s hs).1⟩
          · rw [if_neg hb0, Option.some.injEq, Prod.mk.injEq] at heq2
            obtain ⟨rfl, rfl⟩ := heq2
            rw [List.drop_length]
            exact ⟨GoodDelta.nil cfg secOcc b1, rfl, by simp, by simp⟩
        obtain ⟨hg1, hd1, hf1⟩ := hlec
        obtain ⟨hg2, hd2, hsplit, hf2⟩ := hlab
        obtain ⟨hfields1, hfields2, hfields3, hfields4, Ls, hfields5⟩ :=
          addDailyLimits_fields allSess (blockLetters course.blocks) b2
        have hgood : GoodDelta cfg secOcc b (addDailyLimits (blockLetters course.blocks)
            allSess b2) allSess := by
          have := GoodDelta.trans hg1 hg2
          rw [← hsplit] at this
          exact ⟨by rw [hfields1, this.1], by rw [hfields2, this.2.1], this.2.2⟩
        have hfc : ∀ s ∈ allSess, FromCourse course s := by
          intro s hs
          rw [hsplit] at hs
          rcases List.mem_append.mp hs with hs | hs
          · exact hf1 s hs
          · exact hf2 s hs
        refine ⟨hgood, hfc, ⟨Ls, by rw [hfields5, hd2, hd1]⟩, ?_⟩
        intro blk
        by_cases hblk : blk ∈ blockLetters course.blocks
        · rcases addDailyLimits_mem allSess (blockLetters course.blocks) b2 blk hblk with
            he | hmem
          · left
            intro s hs hsblk
            exfalso
            rw [List.isEmpty_iff] at he
            have : s ∈ allSess.filter (fun s => s.blk == blk) :=
              List.mem_filter.mpr ⟨hs, by simp [hsblk]⟩
            rw [he] at this
            exact List.not_mem_nil s this
          · exact Or.inr hmem
        · left
          intro s hs hsblk
          exact absurd (hsblk ▸ (hfc s hs).2.2.2) hblk

theorem coursesFold_goodDelta (cfg : Cfg) (rooms : Rooms) (secOcc : SectionKey → Finset ℕ) :
    ∀ (courses : List Course) (b bf : Build),
      coursesFold cfg rooms secOcc courses b = some bf →
      ∃ Δ, GoodDelta cfg secOcc b bf Δ ∧ (∀ s ∈ Δ, ∃ c ∈ courses, FromCourse c s)
  | [], b, bf, h => by
    rw [coursesFold, Option.some.injEq] at h
    subst h
    exact ⟨[], GoodDelta.nil cfg secOcc b, by simp⟩
  | c :: rest, b, bf, h => by
    rw [coursesFold] at h
    rcases hcc : create_course_sessions cfg rooms secOcc c b with _ | ⟨l, b1⟩
    · rw [hcc] at h
      exact absurd h (by simp)
    · rw [hcc] at h
      obtain ⟨hg1, hf1, _, _⟩ := create_course_sessions_facts hcc
      obtain ⟨Δ2, hg2, hf2⟩ := coursesFold_goodDelta cfg rooms secOcc rest b1 bf h
      refine ⟨l ++ Δ2, GoodDelta.trans hg1 hg2, ?_⟩
      intro s hs
      rcases List.mem_append.mp hs with hs | hs
      · exact ⟨c, List.mem_cons_self c rest, hf1 s hs⟩
      · obtain ⟨c', hc', hfc⟩ := hf2 s hs
        exact ⟨c', List.mem_cons_of_mem c hc', hfc⟩

/-- Per-phase daily-cap cover: under distinct course codes, every
`(code, blk)` pair is either room-free or covered by one `add_daily_limits`
group recording exactly its sessions. -/
def DailyCover (b : Build) : Prop :=
  ∀ code blk,
    (∀ s ∈ b.sessions, s.code = code → s.blk = blk → s.hasRoom = false) ∨
    ((b.sessions.filter (fun s => s.code == code && s.blk == blk)).map
      (fun s => (s.vid, s.hasRoom))) ∈ b.dailyLims

theorem coursesFold_dailyCover (cfg : Cfg) (rooms : Rooms) (secOcc : SectionKey → Finset ℕ) :
    ∀ (courses : List Course) (b bf : Build),
      coursesFold cfg rooms secOcc courses b = some bf →
      (courses.map Course.courseCode).Nodup →
      (∀ s ∈ b.sessions, ∀ c ∈ courses, s.code ≠ c.courseCode) →
      DailyCover b →
      DailyCover bf
  | [], b, bf, h, _, _, hb => by
    rw [coursesFold, Option.some.injEq] at h
    subst h
    exact hb
  | c :: rest, b, bf, h, hnodup, hclean, hb => by
    rw [coursesFold] at h
    rcases hcc : create_course_sessions cfg rooms secOcc c b with _ | ⟨l, b1⟩
    · rw [hcc] at h
      exact absurd h (by simp)
    · rw [hcc] at h
      obtain ⟨⟨hsess, _, _⟩, hfc, ⟨Ls, hdl⟩, hcover⟩ := create_course_sessions_facts hcc
      have hnodup' : (rest.map Course.courseCode).Nodup := (List.nodup_cons.mp hnodup).2
      have hcnotin : c.courseCode ∉ rest.map Course.courseCode := (List.nodup_cons.mp hnodup).1
      have hclean' : ∀ s ∈ b1.sessions, ∀ c' ∈ rest, s.code ≠ c'.courseCode := by
        intro s hs c' hc'
        rw [hsess] at hs
        rcases List.mem_append.mp hs with hs | hs
        · exact hclean s hs c' (List.mem_cons_of_mem c hc')
        · rw [(hfc s hs).1]
          intro hEq
          exact hcnotin (hEq ▸ List.mem_map.mpr ⟨c', hc', rfl⟩)
      refine coursesFold_dailyCover cfg rooms secOcc rest b1 bf h hnodup' hclean' ?_
      intro code blk
      by_cases hcode : code = c.courseCode
      · subst hcode
        rcases hcover blk with hfree | hmem
        · left
          intro s hs hc hblk
          rw [hsess] at hs
          rcases List.mem_append.mp hs with hs | hs
          · exact absurd hc (hclean s hs c (List.mem_cons_self c rest))
          · exact hfree s hs hblk
        · right
          have hfilter : b1.sessions.filter (fun s => s.code == c.courseCode && s.blk == blk) =
              l.filter (fun s => s.blk == blk) := by
            rw [hsess, List.filter_append]
            have h1 : b.sessions.filter (fun s => s.code == c.courseCode && s.blk == blk) = [] := by
              rw [List.filter_eq_nil_iff]
              intro s hs hP
              rw [Bool.and_eq_true, beq_iff_eq] at hP
              exact hclean s hs c (List.mem_cons_self c rest) hP.1
            rw [h1, List.nil_append]
            apply List.filter_congr
            intro s hs
            simp [(hfc s hs).1]
          rw [hfilter]
          exact hmem
      · rcases hb code blk with hfree | hmem
        · left
          intro s hs hc hblk
          rw [hsess] at hs
          rcases List.mem_append.mp hs with hs | hs
          · exact hfree s hs hc hblk
          · exact absurd ((hfc s hs).1 ▸ hc) (by simpa using Ne.symm hcode)
        · right
          have hfilter : b1.sessions.filter (fun s => s.code == code && s.blk == blk) =
              b.sessions.filter (fun s => s.code == code && s.blk == blk) := by
            rw [hsess, List.filter_append]
            have h1 : l.filter (fun s => s.code == code && s.blk == blk) = [] := by
              rw [List.filter_eq_nil_iff]
              intro s hs hP
              rw [Bool.and_eq_true, beq_iff_eq] at hP
              exact hcode (hP.1 ▸ (hfc s hs).1 ▸ rfl)
            rw [h1, List.append_nil]
          rw [hfilter, hdl]
          exact List.mem_append_left Ls hmem

theorem buildPhase_facts (cfg : Cfg) (rooms : Rooms) (st : St) (courses : List Course)
    (bb : Build) (h : buildPhase cfg rooms st courses = some bb) :
    bb.secIvls = bb.sessions.map sessIvl ∧
    (∀ s ∈ bb.sessions, SessWF cfg st.sectionOccupied s) ∧
    (∀ s ∈ bb.sessions, ∃ c ∈ courses, FromCourse c s) ∧
    ((courses.map Course.courseCode).Nodup → DailyCover bb) := by
  unfold buildPhase at h
  dsimp only at h
  rcases hcf : coursesFold cfg rooms st.sectionOccupied courses
      { emptyBuild st.counter st.early st.late with roomIvls := blockages st.occupiedSlots }
    with _ | b1
  · rw [hcf] at h
    exact absurd h (by simp)
  · rw [hcf] at h
    rw [Option.some.injEq] at h
    subst h
    obtain ⟨Δ, ⟨hsess, hivl, hwf⟩, hfc⟩ := coursesFold_goodDelta cfg rooms st.sectionOccupied
      courses _ b1 hcf
    have hsess' : b1.sessions = Δ := by simpa [emptyBuild] using hsess
    have hivl' : b1.secIvls = Δ.map sessIvl := by simpa [emptyBuild] using hivl
    refine ⟨by simpa [hsess'] using hivl', ?_, ?_, ?_⟩
    · intro s hs
      exact hwf s (hsess' ▸ hs)
    · intro s hs
      exact hfc s (hsess' ▸ hs)
    · intro hnodup
      have hdc := coursesFold_dailyCover cfg rooms st.sectionOccupied courses _ b1 hcf hnodup
        (by simp [emptyBuild]) (by intro code blk; left; simp [emptyBuild])
      intro code blk
      exact hdc code blk

theorem solvePhase_some (cfg : Cfg) (rooms : Rooms) (st : St) (courses : List Course)
    (σ : Asg) (evs : List Event) (st' : St)
    (h : solvePhase cfg rooms st courses σ = some (evs, st')) :
    ∃ bb, buildPhase cfg rooms st courses = some bb ∧ SatModel cfg bb σ ∧
      evs = bb.sessions.map (extractEvent cfg rooms σ) ∧
      st' = update_occupancy_from_schedule
        { occupiedSlots := st.occupiedSlots, sectionOccupied := st.sectionOccupied,
          counter := bb.counter, early := (extractLoads σ bb.sessions bb.early bb.late).1,
          late := (extractLoads σ bb.sessions bb.early bb.late).2 } evs := by
  unfold solvePhase at h
  rcases hbp : buildPhase cfg rooms st courses with _ | bb
  · rw [hbp] at h
    exact absurd h (by simp)
  · rw [hbp] at h
    dsimp only at h
    by_cases hsat : SatModel cfg bb σ
    · rw [if_pos hsat] at h
      rw [Option.some.injEq, Prod.mk.injEq] at h
      obtain ⟨rfl, rfl⟩ := h
      exact ⟨bb, rfl, hsat, rfl, rfl⟩
    · rw [if_neg hsat] at h
      exact absurd h (by simp)

/-! ### Emitted-event helpers -/

def keyOf (e : Event) : SectionKey := (e.program, e.year, e.block)

def eSlots (e : Event) : Finset ℕ := Finset.Ico e.startSlot (e.startSlot + e.duration)

/-- The section non-overlap relation between two emitted events (claim C1). -/
def C1rel (e1 e2 : Event) : Prop :=
  keyOf e1 = keyOf e2 → e1.dayIdx ≠ e2.dayIdx ∨ Disjoint (eSlots e1) (eSlots e2)

/-- Per-event facts established by extraction (used by claims C3, C8, C10). -/
def EventWF (cfg : Cfg) (e : Event) : Prop :=
  e.period = format_period cfg e.startSlot e.duration ∧
  (e.session = "Practicum" → e.room = "online" ∧ e.roomType = none) ∧
  (e.session = "Lecture" → hasSubstr e.courseCode "NSTP" = true → 1 ≤ e.duration →
    e.dayIdx = 4 ∨ e.dayIdx = 5) ∧
  (e.session = "Lecture" → (strStarts e.courseCode "GEC" ||
    strStarts e.courseCode "MAT") = true → 1 ≤ e.duration → e.dayIdx ≤ 3)

theorem extractEvent_key (cfg : Cfg) (rooms : Rooms) (σ : Asg) (s : Sess) :
    keyOf (extractEvent cfg rooms σ s) = s.key := rfl

theorem extractEvent_practicum (cfg : Cfg) (rooms : Rooms) (σ : Asg) (s : Sess)
    (h : (extractEvent cfg rooms σ s).session = "Practicum") : s.stype = "practicum" := by
  unfold extractEvent at h
  dsimp only at h
  by_cases h1 : (s.stype == "lecture") = true
  · rw [if_pos h1] at h
    exact absurd h (by decide)
  · rw [if_neg h1] at h
    by_cases h2 : (s.stype == "practicum") = true
    · exact beq_iff_eq.mp h2
    · rw [if_neg h2] at h
      exact absurd h (by decide)

theorem extractEvent_lecture (cfg : Cfg) (rooms : Rooms) (σ : Asg) (s : Sess)
    (h : (extractEvent cfg rooms σ s).session = "Lecture") : s.stype = "lecture" := by
  unfold extractEvent at h
  dsimp only at h
  by_cases h1 : (s.stype == "lecture") = true
  · exact beq_iff_eq.mp h1
  · rw [if_neg h1] at h
    by_cases h2 : (s.stype == "practicum") = true
    · rw [if_pos h2] at h
      exact absurd h (by decide)
    · rw [if_neg h2] at h
      exact absurd h (by decide)

theorem extractEvent_noRoom (cfg : Cfg) (rooms : Rooms) (σ : Asg) (s : Sess)
    (h : s.hasRoom = false) :
    (extractEvent cfg rooms σ s).room = "online" ∧
    (extractEvent cfg rooms σ s).roomType = none := by
  unfold extractEvent
  dsimp only
  rw [h]
  exact ⟨by simp, by simp⟩

theorem extractEvent_room_online (cfg : Cfg) (rooms : Rooms) (σ : Asg) (s : Sess)
    (h : (extractEvent cfg rooms σ s).room ≠ "online") : s.hasRoom = true := by
  by_contra hc
  rw [Bool.not_eq_true] at hc
  exact h (extractEvent_noRoom cfg rooms σ s hc).1

/-- The assigned day of a session is recovered from its start slot. -/
theorem sat_day_eq_div (cfg : Cfg) (σ : Asg) (s : Sess)
    (h1 : (σ s.vid).dy * cfg.slots_per_day ≤ (σ s.vid).st)
    (h2 : (σ s.vid).st < ((σ s.vid).dy + 1) * cfg.slots_per_day) :
    (σ s.vid).st / cfg.slots_per_day = (σ s.vid).dy := by
  have hspd : 0 < cfg.slots_per_day := by
    rcases Nat.eq_zero_or_pos cfg.slots_per_day with h | h
    · rw [h] at h2
      omega
    · exact h
  exact Nat.div_eq_of_lt_le h1 h2

theorem filter_length_mono {α : Type} (P Q : α → Bool) :
    ∀ l : List α, (∀ x ∈ l, P x = true → Q x = true) →
      (l.filter P).length ≤ (l.filter Q).length
  | [], _ => le_refl 0
  | x :: xs, h => by
    have ih := filter_length_mono P Q xs (fun y hy => h y (List.mem_cons_of_mem x hy))
    by_cases hP : P x = true
    · rw [List.filter_cons_of_pos hP, List.filter_cons_of_pos (h x (List.mem_cons_self x xs) hP)]
      simpa using ih
    · rw [List.filter_cons_of_neg (by simpa using hP)]
      by_cases hQ : Q x = true
      · rw [List.filter_cons_of_pos hQ]
        exact le_trans ih (by simp)
      · rw [List.filter_cons_of_neg (by simpa using hQ)]
        exact ih

theorem updateOccEvent_secOcc (st : St) (e : Event) :
    (updateOccEvent st e).sectionOccupied = fun k =>
      if k = (e.program, e.year, e.block) then
        st.sectionOccupied k ∪ Finset.Ico e.startSlot (e.startSlot + e.duration)
      else st.sectionOccupied k := by
  unfold updateOccEvent
  dsimp only
  rcases e.roomType with _ | rt
  · rfl
  · dsimp only
    by_cases hc : rt ≠ "" ∧ e.roomIdx ≠ -1
    · rw [if_pos hc]
    · rw [if_neg hc]

theorem update_occ_mono (evs : List Event) :
    ∀ (st : St) (k : SectionKey),
      st.sectionOccupied k ⊆ (update_occupancy_from_schedule st evs).sectionOccupied k
  | st, k => by
    induction evs generalizing st with
    | nil => exact subset_rfl
    | cons e rest ih =>
      have h1 : st.sectionOccupied k ⊆ (updateOccEvent st e).sectionOccupied k := by
        rw [updateOccEvent_secOcc]
        dsimp only
        by_cases hk : k = (e.program, e.year, e.block)
        · rw [if_pos hk]
          exact Finset.subset_union_left
        · rw [if_neg hk]
      exact subset_trans h1 (ih (updateOccEvent st e))

theorem update_occ_covers (evs : List Event) :
    ∀ (st : St), ∀ e ∈ evs,
      eSlots e ⊆ (update_occupancy_from_schedule st evs).sectionOccupied (keyOf e) := by
  induction evs with
  | nil => intro st e he; exact absurd he (List.not_mem_nil e)
  | cons e0 rest ih =>
    intro st e he
    rcases List.mem_cons.mp he with rfl | he
    · have h1 : eSlots e ⊆ (updateOccEvent st e).sectionOccupied (keyOf e) := by
        rw [updateOccEvent_secOcc]
        have hkey : keyOf e = (e.program, e.year, e.block) := rfl
        rw [hkey]
        dsimp only
        rw [if_pos rfl]
        exact Finset.subset_union_right
      exact subset_trans h1 (update_occ_mono rest (updateOccEvent st e) (keyOf e))
    · exact ih (updateOccEvent st e0) e he

/-- Everything claim-relevant about the events of one successfully solved
phase. -/
theorem solvePhase_events (cfg : Cfg) (rooms : Rooms) (st : St) (courses : List Course)
    (σ : Asg) (evs : List Event) (st' : St)
    (h : solvePhase cfg rooms st courses σ = some (evs, st')) :
    List.Pairwise C1rel evs ∧
    (∀ e ∈ evs, Disjoint (eSlots e) (st.sectionOccupied (keyOf e))) ∧
    (∀ e ∈ evs, EventWF cfg e) ∧
    (∀ e ∈ evs, ∃ c ∈ courses, e.courseCode = c.courseCode) ∧
    (∀ k, st.sectionOccupied k ⊆ st'.sectionOccupied k) ∧
    (∀ e ∈ evs, eSlots e ⊆ st'.sectionOccupied (keyOf e)) ∧
    ((courses.map Course.courseCode).Nodup → ∀ (code : String) (blk : Char) (d : ℕ),
      (evs.filter (fun e => e.courseCode == code && e.block == blk && e.dayIdx == d &&
        e.room != "online")).length ≤ 2) := by
  obtain ⟨bb, hbp, hsat, hevs, hst'⟩ := solvePhase_some cfg rooms st courses σ evs st' h
  obtain ⟨halign, hwf, hfc, hdc⟩ := buildPhase_facts cfg rooms st courses bb hbp
  obtain ⟨hvars, hsec, _, _, _, _, hlim, _⟩ := hsat
  have hsesspw : List.Pairwise (fun s1 s2 => s1.key = s2.key →
      Disjoint (Finset.Ico (σ s1.vid).st ((σ s1.vid).st + s1.duration))
               (Finset.Ico (σ s2.vid).st ((σ s2.vid).st + s2.duration))) bb.sessions := by
    have hp := hsec
    rw [halign, List.pairwise_map] at hp
    exact hp
  refine ⟨?_, ?_, ?_, ?_, ?_, ?_, ?_⟩
  · rw [hevs, List.pairwise_map]
    exact hsesspw.imp (fun h12 hkey => Or.inr (h12 hkey))
  · intro e he
    rw [hevs] at he
    obtain ⟨s, hsmem, rfl⟩ := List.mem_map.mp he
    rw [Finset.disjoint_left]
    intro a ha hmem
    rw [extractEvent_key] at hmem
    have ha' : (σ s.vid).st ≤ a ∧ a < (σ s.vid).st + s.duration := by
      simpa [eSlots, extractEvent] using Finset.mem_Ico.mp ha
    have hk : a - (σ s.vid).st < s.duration := by omega
    have hdom := (hvars s hsmem).1
    have := (hwf s hsmem).1 _ hdom (a - (σ s.vid).st) hk
    rw [Nat.add_sub_cancel' ha'.1] at this
    exact this hmem
  · intro e he
    rw [hevs] at he
    obtain ⟨s, hsmem, rfl⟩ := List.mem_map.mp he
    obtain ⟨hdom, hdy, hlo, hhi, _, _⟩ := hvars s hsmem
    refine ⟨rfl, ?_, ?_, ?_⟩
    · intro hP
      exact extractEvent_noRoom cfg rooms σ s
        ((hwf s hsmem).2.1 (extractEvent_practicum cfg rooms σ s hP))
    · intro hL hcode hdur
      have hsty := extractEvent_lecture cfg rooms σ s hL
      have hday := (hwf s hsmem).2.2.1 hsty hcode _ hdom hdur
      have hdiv := sat_day_eq_div cfg σ s hlo hhi
      have : (extractEvent cfg rooms σ s).dayIdx = (σ s.vid).dy := rfl
      rw [this, ← hdiv]
      exact hday
    · intro hL hcode hdur
      have hsty := extractEvent_lecture cfg rooms σ s hL
      have hday := (hwf s hsmem).2.2.2 hsty hcode _ hdom hdur
      have hdiv := sat_day_eq_div cfg σ s hlo hhi
      have : (extractEvent cfg rooms σ s).dayIdx = (σ s.vid).dy := rfl
      rw [this, ← hdiv]
      exact hday
  · intro e he
    rw [hevs] at he
    obtain ⟨s, hsmem, rfl⟩ := List.mem_map.mp he
    obtain ⟨c, hc, hfcs⟩ := hfc s hsmem
    exact ⟨c, hc, hfcs.1⟩
  · intro k
    rw [hst']
    exact update_occ_mono evs
      { occupiedSlots := st.occupiedSlots, sectionOccupied := st.sectionOccupied,
        counter := bb.counter, early := (extractLoads σ bb.sessions bb.early bb.late).1,
        late := (extractLoads σ bb.sessions bb.early bb.late).2 } k
  · intro e he
    rw [hst']
    exact update_occ_covers evs _ e he
  · intro hnodup code blk d
    have hdcov := hdc hnodup code blk
    rw [hevs, List.filter_map, List.length_map]
    set P : Sess → Bool := fun s =>
      (extractEvent cfg rooms σ s).courseCode == code &&
      (extractEvent cfg rooms σ s).block == blk &&
      (extractEvent cfg rooms σ s).dayIdx == d &&
      (extractEvent cfg rooms σ s).room != "online" with hP
    set Q : Sess → Bool := fun s =>
      (s.code == code && s.blk == blk) && (s.hasRoom && ((σ s.vid).dy == d)) with hQ
    have hmono : (bb.sessions.filter P).length ≤ (bb.sessions.filter Q).length := by
      apply filter_length_mono
      intro s hs hPs
      rw [hP] at hPs
      simp only [Bool.and_eq_true, bne_iff_ne, ne_eq] at hPs
      obtain ⟨⟨⟨h1, h2⟩, h3⟩, h4⟩ := hPs
      have hroom : s.hasRoom = true := extractEvent_room_online cfg rooms σ s h4
      rw [hQ]
      simp only [Bool.and_eq_true]
      exact ⟨⟨h1, h2⟩, hroom, h3⟩
    refine le_trans hmono ?_
    rcases hdcov with hfree | hmem
    · have : bb.sessions.filter Q = [] := by
        rw [List.filter_eq_nil_iff]
        intro s hs hQs
        rw [hQ] at hQs
        simp only [Bool.and_eq_true, beq_iff_eq] at hQs
        have := hfree s hs hQs.1.1 hQs.1.2
        rw [this] at hQs
        exact Bool.false_ne_true hQs.2.1
      rw [this]
      exact Nat.zero_le 2
    · by_cases hd : d < cfg.numDays
      · have hcount := hlim _ hmem d hd
        have heq : ((bb.sessions.filter (fun s => s.code == code && s.blk == blk)).map
            (fun s => (s.vid, s.hasRoom))).filter
              (fun p => p.2 && ((σ p.1).dy == d)) =
            ((bb.sessions.filter (fun s => s.code == code && s.blk == blk)).filter
              (fun s => s.hasRoom && ((σ s.vid).dy == d))).map (fun s => (s.vid, s.hasRoom)) := by
          rw [List.filter_map]
          rfl
        rw [heq, List.length_map, List.filter_filter] at hcount
        refine le_trans (le_of_eq ?_) hcount
        rw [hQ]
        congr 1
        apply List.filter_congr
        intro s _
        dsimp only
        cases s.code == code <;> cases s.blk == blk <;> cases s.hasRoom <;>
          cases (σ s.vid).dy == d <;> rfl
      · have : bb.sessions.filter Q = [] := by
          rw [List.filter_eq_nil_iff]
          intro s hs hQs
          rw [hQ] at hQs
          simp only [Bool.and_eq_true, beq_iff_eq] at hQs
          have hdy := (hvars s hs).2.1
          omega
        rw [this]
        exact Nat.zero_le 2

/-! ### Cross-phase propagation -/

theorem insertDesc_perm (x : ℚ × Course) :
    ∀ l : List (ℚ × Course), List.Perm (insertDesc x l) (x :: l)
  | [] => List.Perm.refl _
  | y :: ys => by
    unfold insertDesc
    by_cases h : y.1 < x.1
    · rw [if_pos h]
    · rw [if_neg h]
      exact ((insertDesc_perm x ys).cons y).trans (List.Perm.swap x y ys)

theorem foldl_insertDesc_perm :
    ∀ (l acc : List (ℚ × Course)),
      List.Perm (l.foldl (fun a x => insertDesc x a) acc) (acc ++ l)
  | [], acc => by simp
  | x :: xs, acc => by
    rw [List.foldl_cons]
    refine (foldl_insertDesc_perm xs (insertDesc x acc)).trans ?_
    exact ((insertDesc_perm x acc).append_right xs).trans List.perm_middle.symm

theorem sortDescSc_perm (l : List (ℚ × Course)) : List.Perm (sortDescSc l) l := by
  unfold sortDescSc
  simpa using foldl_insertDesc_perm l []

theorem filter_tagged (p q : SchedulingPhase) (l : List (ℚ × Course)) :
    ((l.map (fun x => (q, x.2))).filter (fun x => x.1 == p)) =
      if q = p then l.map (fun x => (q, x.2)) else [] := by
  rw [List.filter_map]
  by_cases h : q = p
  · rw [if_pos h]
    have hc : ((fun x : SchedulingPhase × Course => x.1 == p) ∘
        (fun x : ℚ × Course => (q, x.2))) = fun _ => true := by
      funext x
      simp [h]
    rw [hc, List.filter_true]
  · rw [if_neg h]
    have hc : ((fun x : SchedulingPhase × Course => x.1 == p) ∘
        (fun x : ℚ × Course => (q, x.2))) = fun _ => false := by
      funext x
      simp [h]
    rw [hc, List.filter_false, List.map_nil]

/-- Filtering the prioritized list back down to one phase recovers (a stable
re-ordering of) that phase's courses. -/
theorem pp_filter_eq (courses : List Course) (p : SchedulingPhase) :
    ((prioritize_and_partition courses).filter (fun x => x.1 == p)).map (fun x => x.2) =
      (sortDescSc ((courses.filter (fun c => classify c == p)).map
        (fun c => (pscore c, c)))).map (fun x => x.2) := by
  unfold prioritize_and_partition phaseOrder
  simp only [List.flatMap_cons, List.flatMap_nil, List.append_nil, List.filter_append,
    filter_tagged]
  cases p <;> simp [List.map_map, Function.comp]

theorem groupOf_perm (courses : List Course) (p : SchedulingPhase) :
    List.Perm (((prioritize_and_partition courses).filter (fun x => x.1 == p)).map
        (fun x => x.2))
      (courses.filter (fun c => classify c == p)) := by
  rw [pp_filter_eq]
  have h := (sortDescSc_perm ((courses.filter (fun c => classify c == p)).map
    (fun c => (pscore c, c)))).map (fun x => x.2)
  rw [List.map_map] at h
  have h2 : ((fun x : ℚ × Course => x.2) ∘ fun c => (pscore c, c)) = id := rfl
  rw [h2, List.map_id] at h
  exact h

/-- Every group produced by the phase partition is a permutation of one
phase's courses. -/
theorem phaseGroups_mem (courses : List Course) (g : List Course)
    (hg : g ∈ phaseGroups (prioritize_and_partition courses)) :
    ∃ p, List.Perm g (courses.filter (fun c => classify c == p)) := by
  unfold phaseGroups at hg
  obtain ⟨hg', _⟩ := List.mem_filter.mp hg
  obtain ⟨p, _, rfl⟩ := List.mem_map.mp hg'
  exact ⟨p, groupOf_perm courses p⟩

theorem group_codes_nodup (courses : List Course)
    (h : (courses.map Course.courseCode).Nodup) (g : List Course)
    (hg : g ∈ phaseGroups (prioritize_and_partition courses)) :
    (g.map Course.courseCode).Nodup := by
  obtain ⟨p, hperm⟩ := phaseGroups_mem courses g hg
  have h1 : ((courses.filter (fun c => classify c == p)).map Course.courseCode).Nodup :=
    List.Nodup.sublist ((List.filter_sublist courses).map Course.courseCode) h
  exact ((hperm.map Course.courseCode).nodup_iff).mpr h1

theorem groupOf_classify (courses : List Course) (p : SchedulingPhase) (c : Course)
    (hc : c ∈ ((prioritize_and_partition courses).filter (fun x => x.1 == p)).map
      (fun x => x.2)) :
    c ∈ courses ∧ classify c = p := by
  have := (groupOf_perm courses p).mem_iff.mp hc
  obtain ⟨h1, h2⟩ := List.mem_filter.mp this
  exact ⟨h1, beq_iff_eq.mp h2⟩

/-- With globally distinct course codes, distinct phase groups carry disjoint
code sets. -/
theorem phaseGroups_codes_pairwise (courses : List Course)
    (h : (courses.map Course.courseCode).Nodup) :
    List.Pairwise (fun g1 g2 => ∀ c1 ∈ g1, ∀ c2 ∈ g2,
        c1.courseCode ≠ c2.courseCode)
      (phaseGroups (prioritize_and_partition courses)) := by
  unfold phaseGroups
  apply List.Pairwise.filter
  rw [List.pairwise_map]
  have hpo : List.Pairwise (fun p q => p ≠ q) phaseOrder := by decide
  refine hpo.imp ?_
  intro p q hpq c1 hc1 c2 hc2 hcode
  obtain ⟨hm1, hcl1⟩ := groupOf_classify courses p c1 hc1
  obtain ⟨hm2, hcl2⟩ := groupOf_classify courses q c2 hc2
  have : c1 = c2 := List.inj_on_of_nodup_map h hm1 hm2 hcode
  exact hpq (hcl1 ▸ hcl2 ▸ congrArg classify this)

/-- Everything claim-relevant about the events of a whole (multi-phase) run,
by induction over the phase list, threading the section ledger. -/
theorem runPhases_facts (cfg : Cfg) (rooms : Rooms) :
    ∀ (groups : List (List Course)) (σs : List Asg) (st : St) (evs : List Event)
      (st' : St),
      runPhases cfg rooms st groups σs = some (evs, st') →
      List.Pairwise C1rel evs ∧
      (∀ e ∈ evs, Disjoint (eSlots e) (st.sectionOccupied (keyOf e))) ∧
      (∀ e ∈ evs, EventWF cfg e) ∧
      (∀ e ∈ evs, ∃ g ∈ groups, ∃ c ∈ g, e.courseCode = c.courseCode) ∧
      (∀ k, st.sectionOccupied k ⊆ st'.sectionOccupied k) ∧
      (∀ e ∈ evs, eSlots e ⊆ st'.sectionOccupied (keyOf e)) ∧
      ((∀ g ∈ groups, (g.map Course.courseCode).Nodup) →
        List.Pairwise (fun g1 g2 => ∀ c1 ∈ g1, ∀ c2 ∈ g2,
          c1.courseCode ≠ c2.courseCode) groups →
        ∀ (code : String) (blk : Char) (d : ℕ),
          (evs.filter (fun e => e.courseCode == code && e.block == blk &&
            e.dayIdx == d && e.room != "online")).length ≤ 2)
  | [], σs, st, evs, st', h => by
    unfold runPhases at h
    obtain ⟨rfl, rfl⟩ := Prod.mk.injEq _ _ _ _ ▸ Option.some.injEq _ _ ▸ h
    refine ⟨List.Pairwise.nil, ?_, ?_, ?_, fun k => subset_rfl, ?_, ?_⟩ <;>
      first
        | (intro e he; exact absurd he (List.not_mem_nil e))
        | (intro _ _ code blk d; simp)
  | g :: rest, [], st, evs, st', h => by
    unfold runPhases at h
    exact absurd h (Option.noConfusion)
  | g :: rest, σ :: σs, st, evs, st', h => by
    unfold runPhases at h
    rcases h1 : solvePhase cfg rooms st g σ with _ | p1
    · rw [h1] at h
      dsimp only at h
      exact absurd h (by simp)
    rw [h1] at h
    dsimp only at h
    rcases h2 : runPhases cfg rooms p1.2 rest σs with _ | p2
    · rw [h2] at h
      dsimp only at h
      exact absurd h (by simp)
    rw [h2] at h
    dsimp only at h
    obtain ⟨rfl, rfl⟩ := Prod.mk.injEq _ _ _ _ ▸ Option.some.injEq _ _ ▸ h
    obtain ⟨hpw1, hdj1, hwf1, hcc1, hmono1, hcov1, hcnt1⟩ :=
      solvePhase_events cfg rooms st g σ p1.1 p1.2 h1
    obtain ⟨hpw2, hdj2, hwf2, hcc2, hmono2, hcov2, hcnt2⟩ :=
      runPhases_facts cfg rooms rest σs p1.2 p2.1 p2.2 h2
    have hcross : ∀ e1 ∈ p1.1, ∀ e2 ∈ p2.1, C1rel e1 e2 := by
      intro e1 he1 e2 he2 hkey
      right
      have hsub : eSlots e1 ⊆ p1.2.sectionOccupied (keyOf e1) := hcov1 e1 he1
      have hdisj : Disjoint (eSlots e2) (p1.2.sectionOccupied (keyOf e2)) := hdj2 e2 he2
      rw [← hkey] at hdisj
      exact Finset.disjoint_of_subset_left hsub hdisj.symm
    refine ⟨?_, ?_, ?_, ?_, ?_, ?_, ?_⟩
    · exact List.pairwise_append.mpr ⟨hpw1, hpw2, hcross⟩
    · intro e he
      rcases List.mem_append.mp he with he | he
      · exact hdj1 e he
      · exact Finset.disjoint_of_subset_right (hmono1 (keyOf e)) (hdj2 e he)
    · intro e he
      rcases List.mem_append.mp he with he | he
      · exact hwf1 e he
      · exact hwf2 e he
    · intro e he
      rcases List.mem_append.mp he with he | he
      · obtain ⟨c, hc, hcode⟩ := hcc1 e he
        exact ⟨g, List.mem_cons_self g rest, c, hc, hcode⟩
      · obtain ⟨g', hg', c, hc, hcode⟩ := hcc2 e he
        exact ⟨g', List.mem_cons_of_mem g hg', c, hc, hcode⟩
    · intro k
      exact subset_trans (hmono1 k) (hmono2 k)
    · intro e he
      rcases List.mem_append.mp he with he | he
      · exact subset_trans (hcov1 e he) (hmono2 (keyOf e))
      · exact hcov2 e he
    · intro hnd hdisj code blk d
      rw [List.filter_append, List.length_append]
      have hnd1 : (g.map Course.courseCode).Nodup := hnd g (List.mem_cons_self g rest)
      have hnd2 : ∀ g' ∈ rest, (g'.map Course.courseCode).Nodup :=
        fun g' hg' => hnd g' (List.mem_cons_of_mem g hg')
      obtain ⟨hhead, htail⟩ := List.pairwise_cons.mp hdisj
      by_cases hcode : ∃ c ∈ g, c.courseCode = code
      · have h2nil : p2.1.filter (fun e => e.courseCode == code && e.block == blk &&
            e.dayIdx == d && e.room != "online") = [] := by
          rw [List.filter_eq_nil_iff]
          intro e he hpe
          obtain ⟨g', hg', c', hc', hcode'⟩ := hcc2 e he
          obtain ⟨c0, hc0, hc0code⟩ := hcode
          simp only [Bool.and_eq_true, beq_iff_eq] at hpe
          exact hhead g' hg' c0 hc0 c' hc'
            (by rw [hc0code, ← hcode', hpe.1.1.1])
        rw [h2nil]
        simpa using hcnt1 hnd1 code blk d
      · have h1nil : p1.1.filter (fun e => e.courseCode == code && e.block == blk &&
            e.dayIdx == d && e.room != "online") = [] := by
          rw [List.filter_eq_nil_iff]
          intro e he hpe
          obtain ⟨c, hc, hcode'⟩ := hcc1 e he
          simp only [Bool.and_eq_true, beq_iff_eq] at hpe
          exact hcode ⟨c, hc, by rw [← hcode', hpe.1.1.1]⟩
        rw [h1nil]
        simpa using hcnt2 hnd2 htail code blk d

/-- All run-level facts, at the `solve` entry point. -/
theorem solveAll_facts (cfg : Cfg) (rooms : Rooms) (courses : List Course)
    (σs : List Asg) (evs : List Event)
    (h : solveAll cfg rooms courses σs = some evs) :
    List.Pairwise C1rel evs ∧
    (∀ e ∈ evs, EventWF cfg e) ∧
    ((courses.map Course.courseCode).Nodup →
      ∀ (code : String) (blk : Char) (d : ℕ),
        (evs.filter (fun e => e.courseCode == code && e.block == blk &&
          e.dayIdx == d && e.room != "online")).length ≤ 2) := by
  unfold solveAll at h
  rcases hrp : runPhases cfg rooms st0 (phaseGroups (prioritize_and_partition courses)) σs
    with _ | p
  · rw [hrp] at h
    dsimp only at h
    exact absurd h (by simp)
  · rw [hrp] at h
    dsimp only at h
    have hevs := Option.some.inj h
    subst hevs
    obtain ⟨hpw, _, hwf, _, _, _, hcnt⟩ :=
      runPhases_facts cfg rooms (phaseGroups (prioritize_and_partition courses)) σs
        st0 p.1 p.2 hrp
    refine ⟨hpw, hwf, ?_⟩
    intro hnd
    exact hcnt (fun g hg => group_codes_nodup courses hnd g hg)
      (phaseGroups_codes_pairwise courses hnd)

/-! ### Concrete run fixtures -/

def tcfg : Cfg :=
  ⟨7, 21, ["Monday", "Tuesday", "Wednesday", "Thursday", "Friday", "Saturday"]⟩

def trooms : Rooms := fun k =>
  if k = "lab" then ["B1"] else if k = "lecture" then ["L1"] else []

def cA : Course := ⟨"CS101", "Prog 1", "BSCS", 1, 3, 1, 1⟩

def cB : Course := ⟨"CS102", "Prog 2", "BSCS", 1, 3, 1, 1⟩

def tasg2 : Asg := fun v =>
  if v = 1 then ⟨0, 0, 0⟩ else if v = 2 then ⟨28, 1, 0⟩
  else if v = 3 then ⟨6, 0, 0⟩ else if v = 4 then ⟨34, 1, 0⟩
  else if v = 5 then ⟨12, 0, 0⟩ else if v = 6 then ⟨56, 2, 0⟩
  else if v = 7 then ⟨18, 0, 0⟩ else ⟨62, 2, 0⟩

def tevs2 : List Event := (solveAll tcfg trooms [cA, cB] [tasg2]).getD []

def tnstp : Course := ⟨"NSTP11", "NSTP 1", "BSCS", 1, 0, 1, 1⟩

def tasg1 : Asg := fun v =>
  if v = 1 then ⟨0, 0, 0⟩ else if v = 2 then ⟨28, 1, 0⟩ else ⟨0, 0, 0⟩

def tevs1 : List Event := (solveAll tcfg trooms [tnstp] [tasg1]).getD []

def tprac : Course := ⟨"IT422", "Practicum", "BSIT", 4, 0, 2, 1⟩

def tevsP : List Event := (solveAll tcfg trooms [tprac] [tasg1]).getD []

def tpracRes : List Sess × Build :=
  (create_practicum_sessions tcfg (fun _ => ∅) tprac (emptyBuild 1 0 0)).getD
    ([], emptyBuild 1 0 0)

/-! ### Claim C1: section non-overlap -/

/-- Claim C1: in every successful run, any two emitted events of the same
section key `(program, year, block)` are on different days or occupy disjoint
`[start, start+duration)` global slot ranges — within a phase from the
per-section NoOverlap intervals, across phases because later domains exclude
the section's occupied ledger slots. -/
theorem claim_C1 (cfg : Cfg) (rooms : Rooms) (courses : List Course) (σs : List Asg)
    (evs : List Event) (h : solveAll cfg rooms courses σs = some evs) :
    List.Pairwise (fun e1 e2 => keyOf e1 = keyOf e2 →
      e1.dayIdx ≠ e2.dayIdx ∨ Disjoint (eSlots e1) (eSlots e2)) evs :=
  (solveAll_facts cfg rooms courses σs evs h).1

theorem claim_C1_witness :
    solveAll tcfg trooms [tnstp] [tasg1] = some tevs1 ∧
    List.Pairwise (fun e1 e2 => keyOf e1 = keyOf e2 →
      e1.dayIdx ≠ e2.dayIdx ∨ Disjoint (eSlots e1) (eSlots e2)) tevs1 :=
  ⟨by with_unfolding_all decide,
   claim_C1 tcfg trooms [tnstp] [tasg1] tevs1 (by with_unfolding_all decide)⟩

/-! ### Claim C2: daily physical cap -/

/-- Claim C2, amended: the cap the code enforces is per course and block —
in a successful run on courses with pairwise-distinct codes, for every
`(courseCode, block, day)` at most 2 emitted events have a non-online room.
The claim's section-wide reading (per `(program, year, block, day)`) is
refuted by `claim_C2_counterexample`. -/
theorem claim_C2 (cfg : Cfg) (rooms : Rooms) (courses : List Course) (σs : List Asg)
    (evs : List Event) (hnd : (courses.map Course.courseCode).Nodup)
    (h : solveAll cfg rooms courses σs = some evs)
    (code : String) (blk : Char) (d : ℕ) :
    (evs.filter (fun e => e.courseCode == code && e.block == blk &&
      e.dayIdx == d && e.room != "online")).length ≤ 2 :=
  (solveAll_facts cfg rooms courses σs evs h).2.2 hnd code blk d

/-- Claim C2, counterexample to the section-wide reading: two year-1 BSCS
courses in the same block each schedule a lecture and a lab on day 0, giving
the section `(BSCS, 1, A)` four physical events on one day. -/
theorem claim_C2_counterexample :
    solveAll tcfg trooms [cA, cB] [tasg2] = some tevs2 ∧
    2 < (tevs2.filter (fun e => e.program == "BSCS" && e.year == 1 &&
      e.block == 'A' && e.dayIdx == 0 && e.room != "online")).length := by
  refine ⟨?_, ?_⟩ <;> with_unfolding_all decide

theorem claim_C2_witness :
    ([cA, cB].map Course.courseCode).Nodup ∧
    solveAll tcfg trooms [cA, cB] [tasg2] = some tevs2 ∧
    (tevs2.filter (fun e => e.courseCode == "CS101" && e.block == 'A' &&
      e.dayIdx == 0 && e.room != "online")).length ≤ 2 :=
  ⟨by decide, by with_unfolding_all decide,
   claim_C2 tcfg trooms [cA, cB] [tasg2] tevs2 (by decide)
     (by with_unfolding_all decide) "CS101" 'A' 0⟩

/-! ### Claim C3: day-of-week restrictions -/

/-- Claim C3, amended: the day restrictions hold for *lecture* events only:
in every successful run, every NSTP lecture event (of nonzero duration) is
on day 4 or 5, and every GEC/MAT lecture event is on a day ≤ 3. NSTP *lab*
sessions are exempt (`create_course_sessions` passes `is_nstp=False` when
creating labs), so the claim's \"including the lab sessions\" half fails —
see `claim_C3_counterexample`. -/
theorem claim_C3 (cfg : Cfg) (rooms : Rooms) (courses : List Course) (σs : List Asg)
    (evs : List Event) (h : solveAll cfg rooms courses σs = some evs) :
    ∀ e ∈ evs,
      (e.session = "Lecture" → hasSubstr e.courseCode "NSTP" = true →
        1 ≤ e.duration → e.dayIdx = 4 ∨ e.dayIdx = 5) ∧
      (e.session = "Lecture" →
        (strStarts e.courseCode "GEC" || strStarts e.courseCode "MAT") = true →
        1 ≤ e.duration → e.dayIdx ≤ 3) := by
  intro e he
  have hwf := (solveAll_facts cfg rooms courses σs evs h).2.1 e he
  exact ⟨hwf.2.2.1, hwf.2.2.2⟩

/-- Claim C3, counterexample: a successful run schedules both laboratory
sessions of the NSTP course `NSTP11` on days 0 and 1 — NSTP events off
days 4/5. -/
theorem claim_C3_counterexample :
    solveAll tcfg trooms [tnstp] [tasg1] = some tevs1 ∧
    tevs1.any (fun e => hasSubstr e.courseCode "NSTP" &&
      !(e.dayIdx == 4 || e.dayIdx == 5)) = true := by
  refine ⟨?_, ?_⟩ <;> with_unfolding_all decide

theorem claim_C3_witness :
    solveAll tcfg trooms [cA, cB] [tasg2] = some tevs2 ∧
    ∀ e ∈ tevs2,
      (e.session = "Lecture" → hasSubstr e.courseCode "NSTP" = true →
        1 ≤ e.duration → e.dayIdx = 4 ∨ e.dayIdx = 5) ∧
      (e.session = "Lecture" →
        (strStarts e.courseCode "GEC" || strStarts e.courseCode "MAT") = true →
        1 ≤ e.duration → e.dayIdx ≤ 3) :=
  ⟨by with_unfolding_all decide,
   claim_C3 tcfg trooms [cA, cB] [tasg2] tevs2 (by with_unfolding_all decide)⟩

/-! ### Claim C8: period formatting -/

/-- Claim C8, amended: every emitted event's period string is the formatted
`"start - end"` wall-time pair, and the formatter agrees with the claimed
12-hour rendering (no leading zero on the hour, two-digit minutes, noon as
`12:MM PM`) for every in-range time except midnight, which the code renders
as `12:MM PM` rather than the claimed `12:MM AM` — see
`claim_C8_counterexample`. -/
theorem claim_C8 (cfg : Cfg) (rooms : Rooms) (courses : List Course) (σs : List Asg)
    (evs : List Event) (h : solveAll cfg rooms courses σs = some evs) :
    (∀ e ∈ evs, e.period = format_period cfg e.startSlot e.duration) ∧
    (∀ t : ℚ, 0 ≤ t → t < 24 → fmt t = fmtAmended t) := by
  refine ⟨?_, fun t h0 h24 => fmt_eq_fmtAmended t h0 h24⟩
  intro e he
  exact ((solveAll_facts cfg rooms courses σs evs h).2.1 e he).1

/-- Claim C8, counterexample: midnight is rendered `12:00 PM` by the code
(the final `h == 12 and ampm == "AM"` reassignment flips its meridiem),
where the claim demands `12:00 AM`. -/
theorem claim_C8_counterexample :
    fmt 0 = "12:00 PM" ∧ fmtClaim 0 = "12:00 AM" ∧ fmt 0 ≠ fmtClaim 0 := by
  refine ⟨?_, ?_, ?_⟩ <;> with_unfolding_all decide

theorem claim_C8_witness :
    solveAll tcfg trooms [tprac] [tasg1] = some tevsP ∧
    ∀ e ∈ tevsP, e.period = format_period tcfg e.startSlot e.duration :=
  ⟨by with_unfolding_all decide,
   (claim_C8 tcfg trooms [tprac] [tasg1] tevsP (by with_unfolding_all decide)).1⟩

/-! ### Claim C9: failure behaviour of `generate_schedule` -/

/-- Result of `solve` as observed by `generate_schedule`: the sentinel
`"impossible"` or the combined schedule. -/
inductive RunRes where
  | impossible
  | ok (evs : List Event)
deriving DecidableEq, Repr

/-- The phase loop of `solve`: a phase whose model cannot be satisfied by
its solver solution (status neither OPTIMAL nor FEASIBLE) makes the whole
run return `"impossible"`. -/
def solveRun (cfg : Cfg) (rooms : Rooms) (courses : List Course) (σs : List Asg) :
    RunRes :=
  match solveAll cfg rooms courses σs with
  | none => .impossible
  | some evs => .ok evs

/-- Module-level published state: `schedule_dict` and the process's
`progress_state` entry. -/
structure PubState where
  schedule_dict : List (String × Event)
  progress : ℤ
deriving DecidableEq, Repr

/-- scheduler.py `generate_schedule`, with an unexpected exception raised
while loading or solving modelled by the `crash` flag: on success the
schedule map is cleared and repopulated keyed by `schedule_id` and progress
is set to 100; on exception progress is set to −1. -/
def generate_schedule (cfg : Cfg) (rooms : Rooms) (courses : List Course)
    (σs : List Asg) (crash : Bool) (st : PubState) : RunRes × PubState :=
  if crash then (.impossible, { st with progress := -1 })
  else
    match solveRun cfg rooms courses σs with
    | .impossible => (.impossible, st)
    | .ok evs =>
      (.ok evs, { schedule_dict := evs.map (fun e => (e.schedule_id.str, e)),
                  progress := 100 })

/-- Claim C9: a failed phase makes the whole run return `"impossible"` (with
the published map untouched); an unexpected exception returns `"impossible"`
with progress −1 and the map untouched; `schedule_dict` is cleared and
repopulated, with progress 100, only after a fully successful run. -/
theorem claim_C9 (cfg : Cfg) (rooms : Rooms) (courses : List Course)
    (σs : List Asg) (crash : Bool) (st : PubState) :
    (solveAll cfg rooms courses σs = none →
      generate_schedule cfg rooms courses σs crash st =
        (.impossible, if crash then { st with progress := -1 } else st)) ∧
    (crash = true →
      generate_schedule cfg rooms courses σs crash st =
        (.impossible, { st with progress := -1 })) ∧
    ((generate_schedule cfg rooms courses σs crash st).1 = .impossible →
      (generate_schedule cfg rooms courses σs crash st).2.schedule_dict =
        st.schedule_dict) ∧
    (∀ evs, solveAll cfg rooms courses σs = some evs → crash = false →
      generate_schedule cfg rooms courses σs crash st =
        (.ok evs, ⟨evs.map (fun e => (e.schedule_id.str, e)), 100⟩)) := by
  unfold generate_schedule solveRun
  rcases crash with _ | _
  · simp only [Bool.false_eq_true, if_false]
    rcases hs : solveAll cfg rooms courses σs with _ | evs0
    · refine ⟨fun _ => rfl, fun hc => absurd hc (by simp), fun _ => rfl, ?_⟩
      intro evs hevs _
      exact Option.noConfusion hevs
    · refine ⟨fun hn => Option.noConfusion hn,
        fun hc => absurd hc (by simp), ?_, ?_⟩
      · intro himp
        exact absurd himp (by simp)
      · intro evs hevs _
        have : evs0 = evs := Option.some.inj (hs ▸ hevs)
        subst this
        rfl
  · exact ⟨fun _ => rfl, fun _ => rfl, fun _ => rfl, fun _ _ hc => absurd hc (by simp)⟩

theorem claim_C9_witness :
    solveAll tcfg trooms [tprac] [tasg1] = some tevsP ∧
    generate_schedule tcfg trooms [tprac] [tasg1] false ⟨[], 0⟩ =
      (.ok tevsP, ⟨tevsP.map (fun e => (e.schedule_id.str, e)), 100⟩) :=
  ⟨by with_unfolding_all decide,
   (claim_C9 tcfg trooms [tprac] [tasg1] false ⟨[], 0⟩).2.2.2 tevsP
     (by with_unfolding_all decide) rfl⟩

/-! ### Claim C10: practicum sessions are always online -/

/-- Claim C10: `create_practicum_sessions` never creates a room variable —
it leaves the room-interval list unchanged and every session it creates has
no room; consequently in every successful run each `"Practicum"` event has
room `"online"` and no room type, and updating occupancy from a room-less
event leaves the room ledger `occupied_slots` unchanged. -/
theorem claim_C10 (cfg : Cfg) (rooms : Rooms) (secOcc : SectionKey → Finset ℕ)
    (course : Course) (b : Build) (l : List Sess) (b' : Build)
    (courses : List Course) (σs : List Asg) (evs : List Event)
    (hp : create_practicum_sessions cfg secOcc course b = some (l, b'))
    (hr : solveAll cfg rooms courses σs = some evs) :
    b'.roomIvls = b.roomIvls ∧
    (∀ s ∈ l, s.hasRoom = false) ∧
    (∀ e ∈ evs, e.session = "Practicum" → e.room = "online" ∧ e.roomType = none) ∧
    (∀ (st1 : St) (e : Event), e.roomType = none →
      (updateOccEvent st1 e).occupiedSlots = st1.occupiedSlots) := by
  unfold create_practicum_sessions at hp
  obtain ⟨Δ, hl, hgd, hroom, _, hfacts⟩ :=
    practicumBlocks_goodDelta cfg secOcc course (practicum_num_days course)
      (practicum_slots_per_day course) (blockLetters course.blocks) [] b l b'
      (fun c hc => hc) hp
  refine ⟨hroom, ?_, ?_, ?_⟩
  · intro s hs
    rw [hl, List.nil_append] at hs
    exact (hfacts s hs).2.2
  · intro e he hP
    exact ((solveAll_facts cfg rooms courses σs evs hr).2.1 e he).2.1 hP
  · intro st1 e hrt
    unfold updateOccEvent
    dsimp only
    rw [hrt]

theorem claim_C10_witness :
    create_practicum_sessions tcfg (fun _ => ∅) tprac (emptyBuild 1 0 0) =
      some (tpracRes.1, tpracRes.2) ∧
    solveAll tcfg trooms [tprac] [tasg1] = some tevsP ∧
    (tpracRes.2.roomIvls = (emptyBuild 1 0 0).roomIvls ∧
      (∀ s ∈ tpracRes.1, s.hasRoom = false) ∧
      (∀ e ∈ tevsP, e.session = "Practicum" → e.room = "online" ∧ e.roomType = none) ∧
      (∀ (st1 : St) (e : Event), e.roomType = none →
        (updateOccEvent st1 e).occupiedSlots = st1.occupiedSlots)) :=
  ⟨by with_unfolding_all decide, by with_unfolding_all decide,
   claim_C10 tcfg trooms (fun _ => ∅) tprac (emptyBuild 1 0 0) tpracRes.1 tpracRes.2
     [tprac] [tasg1] tevsP (by with_unfolding_all decide) (by with_unfolding_all decide)⟩

end OptiSched
